import Mathlib

/-!
# Verification of the `xputils` navdata subsystem

Shallow embedding of the X-Plane navigation-database parsers and graph
builder from `src/navdata` (Rust), together with theorems settling the
frozen claims about them.

Conventions of the embedding:
* `heapless::String<N>` values are modelled as Lean `String`s (the code only
  compares and stores them; the length bound is enforced at parse time and
  plays no role in the claims settled here).
* `f32`/`f64` fields are modelled as `ℚ` where only storage and equality with
  zero matter; `rust_decimal::Decimal` values are modelled as `ℚ` (decimal
  arithmetic is exact rational arithmetic within its range).
* Machine integers (`u16`, `u32`) are modelled as `ℕ`; bounds are stated
  explicitly where a parse would reject an overflow.
* Fallible Rust code returning `Result` is modelled with `Except`/`Option`.
-/

namespace XPUtils

/-- `DataVersion` from `navdata/mod.rs`. -/
inductive DataVersion
  | xp1100 | xp1101 | xp1140 | xp1150 | xp1200
  deriving DecidableEq, Repr

/-- `Header` from `navdata/mod.rs` (the copyright tail is kept as `List Char`
to stay close to the character-level parsers). -/
structure Header where
  version : DataVersion
  cycle : Nat
  build : Nat
  copyright : List Char
  deriving DecidableEq, Repr

/-! ## Fix rows (`navdata/fix.rs`) -/

/-- `FixType` from `navdata/fix.rs`. -/
inductive FixType
  | arcCenterFix | namedIntxAndRnav | unnamedChartedIntx | middleMarker
  | ndbAsWpt | outerMarker | namedIntx | unchartedAwyIntx | vfrWpt | rnavWpt
  | unspecified | unrecognized (b : Nat)
  deriving DecidableEq, Repr

/-- `FixFunction` from `navdata/fix.rs`. -/
inductive FixFunction
  | finalAppFix | initialAndFinalAppFix | finalAppCrsFix | intermediateAppFix
  | offRouteIntxFAA | offRouteIntx | initialAppFix | finalAppCrsFixAtIAF
  | finalAppCrsFixAtIF | missedAppFix | initialAppFixAndMAF
  | oceanicEntryExitWpt | unnamedStepdownFix | pitchAndCatchPoint
  | namedStepdownFix | aacaaAndSuaWpt | firUirCtrlIntx | latLonFullDegIntx
  | latLonHalfDegIntx | unspecified | unrecognized (b : Nat)
  deriving DecidableEq, Repr

/-- `FixProcedure` from `navdata/fix.rs`. -/
inductive FixProcedure
  | sid | star | approach | multiple | unspecified | unrecognized (b : Nat)
  deriving DecidableEq, Repr

/-- Little-endian byte `i` of a 32-bit integer, as in `u32::to_le_bytes`. -/
def leByte (flags i : Nat) : Nat := flags / 256 ^ i % 256

/-- The byte-0 arm of `parse_wpt_flags` in `navdata/fix.rs`. -/
def fixTypeOfByte (b : Nat) : FixType :=
  if b = 65 then .arcCenterFix          -- b'A'
  else if b = 67 then .namedIntxAndRnav -- b'C'
  else if b = 73 then .unnamedChartedIntx -- b'I'
  else if b = 77 then .middleMarker     -- b'M'
  else if b = 78 then .ndbAsWpt         -- b'N'
  else if b = 79 then .outerMarker      -- b'O'
  else if b = 82 then .namedIntx        -- b'R'
  else if b = 86 then .vfrWpt           -- b'V'
  else if b = 87 then .rnavWpt          -- b'W'
  else if b = 32 then .unspecified      -- b' '
  else .unrecognized b

/-- The byte-1 arm of `parse_wpt_flags` in `navdata/fix.rs`; `terminal` is the
`terminal_area != "ENRT"` flag computed by `parse_row`. -/
def fixFunctionOfByte (b : Nat) (terminal : Bool) : FixFunction :=
  if b = 65 then .finalAppFix           -- b'A'
  else if b = 66 then .initialAndFinalAppFix -- b'B'
  else if b = 67 then .finalAppCrsFix   -- b'C'
  else if b = 68 then .intermediateAppFix -- b'D'
  else if b = 69 then .offRouteIntxFAA  -- b'E'
  else if b = 70 then .offRouteIntx     -- b'F'
  else if b = 73 then .initialAppFix    -- b'I'
  else if b = 75 then .finalAppCrsFixAtIAF -- b'K'
  else if b = 76 then .finalAppCrsFixAtIF -- b'L'
  else if b = 77 then .missedAppFix     -- b'M'
  else if b = 78 then .initialAppFixAndMAF -- b'N'
  else if b = 79 then .oceanicEntryExitWpt -- b'O'
  else if b = 80 then (if terminal then .unnamedStepdownFix else .pitchAndCatchPoint) -- b'P'
  else if b = 83 then (if terminal then .namedStepdownFix else .aacaaAndSuaWpt) -- b'S'
  else if b = 85 then .firUirCtrlIntx   -- b'U'
  else if b = 86 then .latLonFullDegIntx -- b'V'
  else if b = 87 then .latLonHalfDegIntx -- b'W'
  else if b = 32 then .unspecified      -- b' '
  else .unrecognized b

/-- The byte-2 arm of `parse_wpt_flags` in `navdata/fix.rs`. -/
def fixProcedureOfByte (b : Nat) : FixProcedure :=
  if b = 68 then .sid                   -- b'D'
  else if b = 69 then .star             -- b'E'
  else if b = 70 then .approach         -- b'F'
  else if b = 90 then .multiple         -- b'Z'
  else if b = 32 then .unspecified      -- b' '
  else .unrecognized b

/-- `parse_wpt_flags` from `navdata/fix.rs`: split the 32-bit flags field into
its little-endian bytes 0/1/2 and decode each. -/
def parse_wpt_flags (flags : Nat) (terminal : Bool) :
    FixType × FixFunction × FixProcedure :=
  (fixTypeOfByte (leByte flags 0),
   fixFunctionOfByte (leByte flags 1) terminal,
   fixProcedureOfByte (leByte flags 2))

/-- The flags decoding as invoked by `parse_row` in `navdata/fix.rs`, which
passes `terminal_area != "ENRT"`. -/
def fixRowFlags (terminalRegion : String) (flags : Nat) :
    FixType × FixFunction × FixProcedure :=
  parse_wpt_flags flags (terminalRegion ≠ "ENRT")

/-- `Fix` from `navdata/fix.rs`. -/
structure Fix where
  lat : ℚ
  lon : ℚ
  ident : String
  terminal_region : String
  icao_region : String
  typ : FixType
  func : FixFunction
  proc : FixProcedure
  printed_spoken_name : Option String
  deriving DecidableEq, Repr

/-! ### Section-6 letter tables, written from the spec's words

These are the spec side of claim C7: byte tables as stated in spec §6,
keyed by ASCII characters, to be compared with the source's decoder. -/

/-- Byte-0 table as the spec §6 states it (`A`=ArcCenterFix, …). -/
def specFixType (b : Nat) : FixType :=
  if b = Char.toNat 'A' then .arcCenterFix
  else if b = Char.toNat 'C' then .namedIntxAndRnav
  else if b = Char.toNat 'I' then .unnamedChartedIntx
  else if b = Char.toNat 'M' then .middleMarker
  else if b = Char.toNat 'N' then .ndbAsWpt
  else if b = Char.toNat 'O' then .outerMarker
  else if b = Char.toNat 'R' then .namedIntx
  else if b = Char.toNat 'V' then .vfrWpt
  else if b = Char.toNat 'W' then .rnavWpt
  else if b = Char.toNat ' ' then .unspecified
  else .unrecognized b

/-- Byte-1 table as the spec §4.3/§6 states it, with the `P`/`S` context
sensitivity on `terminal_region != ENRT`. -/
def specFixFunction (b : Nat) (notEnrt : Bool) : FixFunction :=
  if b = Char.toNat 'A' then .finalAppFix
  else if b = Char.toNat 'B' then .initialAndFinalAppFix
  else if b = Char.toNat 'C' then .finalAppCrsFix
  else if b = Char.toNat 'D' then .intermediateAppFix
  else if b = Char.toNat 'E' then .offRouteIntxFAA
  else if b = Char.toNat 'F' then .offRouteIntx
  else if b = Char.toNat 'I' then .initialAppFix
  else if b = Char.toNat 'K' then .finalAppCrsFixAtIAF
  else if b = Char.toNat 'L' then .finalAppCrsFixAtIF
  else if b = Char.toNat 'M' then .missedAppFix
  else if b = Char.toNat 'N' then .initialAppFixAndMAF
  else if b = Char.toNat 'O' then .oceanicEntryExitWpt
  else if b = Char.toNat 'P' then
    (if notEnrt then .unnamedStepdownFix else .pitchAndCatchPoint)
  else if b = Char.toNat 'S' then
    (if notEnrt then .namedStepdownFix else .aacaaAndSuaWpt)
  else if b = Char.toNat 'U' then .firUirCtrlIntx
  else if b = Char.toNat 'V' then .latLonFullDegIntx
  else if b = Char.toNat 'W' then .latLonHalfDegIntx
  else if b = Char.toNat ' ' then .unspecified
  else .unrecognized b

/-- Byte-2 table as the spec §6 states it. -/
def specFixProcedure (b : Nat) : FixProcedure :=
  if b = Char.toNat 'D' then .sid
  else if b = Char.toNat 'E' then .star
  else if b = Char.toNat 'F' then .approach
  else if b = Char.toNat 'Z' then .multiple
  else if b = Char.toNat ' ' then .unspecified
  else .unrecognized b

/-! ## Hold rows (`navdata/hold.rs`) -/

/-- `LegLength` from `navdata/hold.rs`. -/
inductive LegLength
  | minutes (m : ℚ)
  | dme (nm : ℚ)
  deriving DecidableEq, Repr

/-- `Direction` from `navdata/hold.rs`. -/
inductive HoldDirection
  | left | right
  deriving DecidableEq, Repr

/-- The leg-length `match` in `hold.rs::parse_file_buffered` (lines 123–130):
`(minutes, 0.0)` first, then `(0.0, dme)`, then the conflict error, mirroring
the Rust pattern order. -/
inductive HoldLegError
  | conflicting (minutes dme : ℚ)
  deriving DecidableEq, Repr

def holdLegLength (legTimeMin legLengthNm : ℚ) : Except HoldLegError LegLength :=
  if legLengthNm = 0 then .ok (.minutes legTimeMin)
  else if legTimeMin = 0 then .ok (.dme legLengthNm)
  else .error (.conflicting legTimeMin legLengthNm)

/-! ## Localizer packed-course split (`navdata/nav.rs::parse_loc`) -/

/-- Truncation toward zero, as `rust_decimal`'s `trunc`. -/
def decTrunc (q : ℚ) : ℚ := if 0 ≤ q then (⌊q⌋ : ℚ) else (⌈q⌉ : ℚ)

/-- `rust_decimal`'s `%`: remainder with the sign of the dividend,
`a % b = a - b * trunc(a / b)`. -/
def decMod (a b : ℚ) : ℚ := a - b * decTrunc (a / b)

/-- The packed-course split from `parse_loc` in `navdata/nav.rs`
(lines 362–373): `crs_true = funny_number % 360` and
`crs_mag = (funny_number - crs_true) / 360`, on the exact decimal
intermediate (before narrowing to `f32`). Returns `(crs_mag, crs_true)`. -/
def parseLocCourseSplit (funnyNumber : ℚ) : ℚ × ℚ :=
  let crsTrue := decMod funnyNumber 360
  let crsMag := (funnyNumber - crsTrue) / 360
  (crsMag, crsTrue)

end XPUtils


namespace XPUtils

/-! ## Navaids (`navdata/nav.rs`) -/

/-- `NdbClass` from `navdata/nav.rs`. -/
inductive NdbClass
  | locator | lowPower | normal | highPower | unrecognized (b : Nat)
  deriving DecidableEq, Repr

/-- `VorClass` from `navdata/nav.rs`. -/
inductive VorClass
  | terminal | lowAlt | highAlt | unspecified | unrecognized (b : Nat)
  deriving DecidableEq, Repr

/-- `MarkerType` from `navdata/nav.rs`. -/
inductive MarkerType
  | outer | middle | inner
  deriving DecidableEq, Repr

/-- `TypeSpecificData` from `navdata/nav.rs` (ten variants; float fields as `ℚ`). -/
inductive TypeSpecificData
  | ndb (freq_khz : Nat) (cls : NdbClass) (flags : ℚ)
      (terminal_region : String) (name : String)
  | vor (freq_10khz : Nat) (cls : VorClass) (slaved_variation : ℚ) (name : String)
  | localizer (is_with_ils : Bool) (freq_10khz : Nat) (max_range : Nat)
      (crs_mag : ℚ) (crs_true : ℚ) (airport_icao : String) (rwy : String)
      (name : String)
  | glideslope (freq_10khz : Nat) (max_range : Nat) (loc_crs_true : ℚ)
      (glide_angle : Nat) (airport_icao : String) (rwy : String) (name : String)
  | markerBeacon (typ : MarkerType) (loc_crs_true : ℚ) (airport_icao : String)
      (rwy : String) (name : String)
  | dme (display_freq : Bool) (paired_freq_10khz : Nat) (service_volume : Nat)
      (bias : ℚ) (terminal_region : String) (name : String)
  | fpap (channel : Nat) (length_offset : ℚ) (final_app_crs_true : ℚ)
      (airport_icao : String) (rwy : String) (perf : String)
  | thresholdPoint (channel : Nat) (thres_cross_height : ℚ)
      (final_app_crs_true : ℚ) (glide_path_angle : Nat) (airport_icao : String)
      (rwy : String) (ref_path_ident : String)
  | gls (channel : Nat) (final_app_crs_true : ℚ) (glide_path_angle : Nat)
      (airport_icao : String) (rwy : String) (ref_path_ident : String)
  deriving DecidableEq, Repr

/-- `std::mem::discriminant` on `TypeSpecificData`, modelled as the
constructor index. -/
def tsdDiscriminant : TypeSpecificData → Nat
  | .ndb .. => 0
  | .vor .. => 1
  | .localizer .. => 2
  | .glideslope .. => 3
  | .markerBeacon .. => 4
  | .dme .. => 5
  | .fpap .. => 6
  | .thresholdPoint .. => 7
  | .gls .. => 8

/-- `Navaid` from `navdata/nav.rs`. -/
structure Navaid where
  lat : ℚ
  lon : ℚ
  elevation : ℤ
  icao_region : String
  ident : String
  type_data : TypeSpecificData
  deriving DecidableEq, Repr

/-! ## The navigation graph (`navdata/mod.rs`) -/

/-- `NavEntry` from `navdata/mod.rs`. -/
inductive NavEntry
  | fix (f : Fix)
  | navaid (n : Navaid)
  deriving DecidableEq, Repr

/-- `AwyEdge` from `navdata/airways.rs`. -/
structure AwyEdge where
  base_fl : Nat
  top_fl : Nat
  is_high : Bool
  name : String
  deriving DecidableEq, Repr

/-- `Edge` from `navdata/hold.rs` (the hold self-loop payload). -/
structure HoldEdgeData where
  inbound_crs_mag : ℚ
  leg_length : LegLength
  turn_direction : HoldDirection
  min_alt_ft : Option Nat
  max_alt_ft : Option Nat
  max_spd_kts : Option Nat
  deriving DecidableEq, Repr

/-- `NavEdge` from `navdata/mod.rs`. -/
inductive NavEdge
  | airway (e : AwyEdge)
  | hold (e : HoldEdgeData)
  deriving DecidableEq, Repr

/-- The petgraph `DiGraph<NavEntry, NavEdge>`: vertices are list positions,
edges keep their insertion order. -/
structure NavGraphM where
  nodes : List NavEntry
  edges : List (Nat × Nat × NavEdge)
  deriving DecidableEq, Repr

/-- `Graph::add_edge`. -/
def addEdge (g : NavGraphM) (a b : Nat) (e : NavEdge) : NavGraphM :=
  { g with edges := g.edges ++ [(a, b, e)] }

/-- `ParsedNodeRefType` from `navdata/mod.rs`. -/
inductive ParsedNodeRefType
  | ndb | vhf | fix
  deriving DecidableEq, Repr

/-- `ParsedNodeRef` from `navdata/mod.rs`. -/
structure ParsedNodeRef where
  ident : String
  icao_region : String
  typ : ParsedNodeRefType
  deriving DecidableEq, Repr

/-- `match_wpt_predicate` from `navdata/mod.rs`: how a parsed `(ident, region,
kind)` reference matches a graph vertex. -/
def matchWptPredicate (wpt : ParsedNodeRef) (entry : NavEntry) : Bool :=
  match wpt.typ, entry with
  | .fix, .fix f => wpt.ident == f.ident && wpt.icao_region == f.icao_region
  | .vhf, .navaid n =>
      wpt.ident == n.ident && wpt.icao_region == n.icao_region &&
      (match n.type_data with
       | .vor .. => true
       | .dme true _ _ _ _ _ => true
       | _ => false)
  | .ndb, .navaid n =>
      wpt.ident == n.ident && wpt.icao_region == n.icao_region &&
      (match n.type_data with
       | .ndb .. => true
       | _ => false)
  | _, _ => false

/-- Rust's `Iterator::position`: index of the first element satisfying `p`. -/
def position (p : α → Bool) : List α → Option Nat
  | [] => none
  | x :: xs => if p x then some 0 else (position p xs).map (· + 1)

/-- `node_indices().find(match_wpt_predicate(..))`: first vertex index whose
entry matches the reference. -/
def resolveWpt (nodes : List NavEntry) (wpt : ParsedNodeRef) : Option Nat :=
  position (matchWptPredicate wpt) nodes

/-- The errors of `ParseError` in `navdata/mod.rs` reachable in the embedded
fragments. -/
inductive ParseErrM
  | unsupportedVersion (v : DataVersion)
  | cycleMismatch (establishedCycle newCycle : Nat)
  | referencedNonexistentWpt (wpt : String)
  | invalidAwyDir (dir : Char)
  | invalidHoldDir (dir : Char)
  | conflictingHoldLegLengths (minutes dme : ℚ)
  deriving DecidableEq, Repr

/-! ## Airway rows (`navdata/airways.rs`) -/

/-- `ParsedAwyEdge` from `navdata/airways.rs`. -/
structure ParsedAwyEdge where
  first : ParsedNodeRef
  second : ParsedNodeRef
  direction : Char
  is_high : Bool
  base_fl : Nat
  top_fl : Nat
  names : List String
  deriving DecidableEq, Repr

/-- The per-name edge-adding loop of `airways.rs::parse_file_buffered`
(lines 76–103): per name, validate the direction code, then add the forward
edge for `N`/`F` and the backward edge for `N`/`B`. -/
def addAwyEdgesLoop (direction : Char) (isHigh : Bool) (baseFl topFl i₁ i₂ : Nat) :
    List String → NavGraphM → Except ParseErrM NavGraphM
  | [], g => .ok g
  | n :: rest, g =>
    let awyEdge : AwyEdge := ⟨baseFl, topFl, isHigh, n⟩
    if direction = 'B' ∨ direction = 'F' ∨ direction = 'N' then
      let g := if direction = 'N' ∨ direction = 'F' then
          addEdge g i₁ i₂ (.airway awyEdge) else g
      let g := if direction = 'N' ∨ direction = 'B' then
          addEdge g i₂ i₁ (.airway awyEdge) else g
      addAwyEdgesLoop direction isHigh baseFl topFl i₁ i₂ rest g
    else .error (.invalidAwyDir direction)

/-- One airway row of `airways.rs::parse_file_buffered` (lines 58–105): resolve
both endpoints (NOTE: the source reports `parsed_edge.second.ident` in both
`ok_or_else` closures, lines 62–66 and 70–74), then run the edge loop. -/
def processAwyRow (g : NavGraphM) (row : ParsedAwyEdge) :
    Except ParseErrM NavGraphM :=
  match resolveWpt g.nodes row.first with
  | none => .error (.referencedNonexistentWpt row.second.ident)
  | some i₁ =>
    match resolveWpt g.nodes row.second with
    | none => .error (.referencedNonexistentWpt row.second.ident)
    | some i₂ =>
      addAwyEdgesLoop row.direction row.is_high row.base_fl row.top_fl i₁ i₂
        row.names g

/-! ## CIFP scaled numeric fields (`navdata/cifp.rs::parse_ssa_row`) -/

/-- `handle_empty` from `navdata/cifp.rs`: a field that contains no non-space
character becomes `None` (winnow's `AsChar::is_space` is space-or-tab). -/
def handle_empty (s : String) : Option String :=
  if s.toList.any (fun c => ¬(c = ' ' ∨ c = '\t')) then some s else none

/-- The arc-radius mapping in `parse_ssa_row` (`opt(float).map(|ar| ar * 1000f64)`,
trace label "arc radius, 1/1000 nm"). -/
def ssaArcRadius (x : Option ℚ) : Option ℚ := x.map (· * 1000)

/-- The θ mapping in `parse_ssa_row` (`opt(float).map(|th| th * 10f64)`,
trace label "θ, 1/10°"). -/
def ssaTheta (x : Option ℚ) : Option ℚ := x.map (· * 10)

/-- The ρ mapping in `parse_ssa_row` (`opt(float).map(|rho| rho * 10f64)`,
trace label "ρ, 1/10nm"). -/
def ssaRho (x : Option ℚ) : Option ℚ := x.map (· * 10)

/-- The vertical-angle mapping in `parse_ssa_row`
(`opt(float.map(|va| va / 100f32))`). -/
def ssaVerticalAngle (x : Option ℚ) : Option ℚ := x.map (· / 100)

end XPUtils


namespace XPUtils

/-! ## Hold rows (`navdata/hold.rs`) -/

/-- `ParsedEdge` from `navdata/hold.rs`. -/
structure ParsedHoldEdge where
  hold_point : ParsedNodeRef
  terminal_region : String
  inbound_crs_mag : ℚ
  leg_time_min : ℚ
  leg_length_nm : ℚ
  direction : Char
  min_alt_ft : Nat
  max_alt_ft : Nat
  max_spd_kts : Nat
  deriving DecidableEq, Repr

/-- The terminal-region pre-filter of `hold.rs::parse_file_buffered`
(lines 82–103): fixes must share the hold's terminal region, VORs match only
en-route holds, NDBs/DMEs must share the terminal region. -/
def holdPointFilter (row : ParsedHoldEdge) (entry : NavEntry) : Bool :=
  match entry with
  | .fix f => f.terminal_region == row.terminal_region
  | .navaid n =>
    match n.type_data with
    | .vor .. => row.terminal_region == "ENRT"
    | .ndb _ _ _ tr _ => tr == row.terminal_region
    | .dme _ _ _ _ tr _ => tr == row.terminal_region
    | _ => false

/-- One hold row of `hold.rs::parse_file_buffered` (lines 82–161): resolve the
hold point through the filtered scan, decode turn direction and leg length,
map zero altitude/speed columns to `None`, and add a self-loop edge. -/
def processHoldRow (g : NavGraphM) (row : ParsedHoldEdge) :
    Except ParseErrM NavGraphM :=
  match position
      (fun e => holdPointFilter row e && matchWptPredicate row.hold_point e)
      g.nodes with
  | none => .error (.referencedNonexistentWpt row.hold_point.ident)
  | some idx =>
    match (if row.direction = 'L' then some HoldDirection.left
           else if row.direction = 'R' then some HoldDirection.right
           else none) with
    | none => .error (.invalidHoldDir row.direction)
    | some turnDirection =>
      match holdLegLength row.leg_time_min row.leg_length_nm with
      | .error (.conflicting m d) => .error (.conflictingHoldLegLengths m d)
      | .ok legLength =>
        let minAlt := if row.min_alt_ft = 0 then none else some row.min_alt_ft
        let maxAlt := if row.max_alt_ft = 0 then none else some row.max_alt_ft
        let maxSpd := if row.max_spd_kts = 0 then none else some row.max_spd_kts
        let edge : HoldEdgeData :=
          ⟨row.inbound_crs_mag, legLength, turnDirection, minAlt, maxAlt, maxSpd⟩
        .ok (addEdge g idx idx (.hold edge))

/-! ## Concrete sample data used by witnesses and counterexamples -/

/-- A fix carrying only the fields the claims exercise. -/
def mkFix (id tr icao : String) : Fix :=
  ⟨0, 0, id, tr, icao, .unspecified, .unspecified, .unspecified, none⟩

/-- Two en-route fixes in region `K2`, as in the spec's airway scenario. -/
def awyNodes0 : List NavEntry :=
  [.fix (mkFix "ABEAM" "ENRT" "K2"), .fix (mkFix "FIKLO" "ENRT" "K2")]

/-- Graph holding the two sample fixes and no edges. -/
def awyG0 : NavGraphM := ⟨awyNodes0, []⟩

/-- The spec's airway scenario row: `ABEAM K2 11 FIKLO K2 11 N 2 180 450`
with names `J1-J101`. -/
def awyRow0 : ParsedAwyEdge :=
  ⟨⟨"ABEAM", "K2", .fix⟩, ⟨"FIKLO", "K2", .fix⟩, 'N', true, 180, 450,
   ["J1", "J101"]⟩

/-- An airway row whose FIRST endpoint does not resolve (ident `NOPE`) while
the second endpoint (`FIKLO`) does. -/
def awyRowBadFirst : ParsedAwyEdge :=
  ⟨⟨"NOPE", "K2", .fix⟩, ⟨"FIKLO", "K2", .fix⟩, 'N', true, 180, 450, ["J1"]⟩

end XPUtils


namespace XPUtils

/-! ## The user-overlay merge (`navdata/mod.rs::build_data_from_folder`) -/

/-- One step of the user-overlay loop: scan the accumulated list for the first
entry with the user entry's identity key (`iter().position(..)`), replace it
if found, append otherwise. -/
def overlayStep {α κ : Type} [DecidableEq κ] (k : α → κ) (acc : List α) (u : α) :
    List α :=
  match position (fun x => decide (k x = k u)) acc with
  | some i => acc.set i u
  | none => acc ++ [u]

/-- The whole user-overlay pass: fold the overlay step over the user entries
in file order. -/
def mergeOverlay {α κ : Type} [DecidableEq κ] (k : α → κ) (base user : List α) :
    List α :=
  user.foldl (overlayStep k) base

/-- The fix identity tuple from `build_data_from_folder`
(`ident`, `icao_region`, `terminal_region`). -/
def fixIdentityKey (f : Fix) : String × String × String :=
  (f.ident, f.icao_region, f.terminal_region)

/-- The navaid identity tuple from `build_data_from_folder`
(`ident`, `icao_region`, `discriminant(type_data)`). -/
def navaidIdentityKey (n : Navaid) : String × String × Nat :=
  (n.ident, n.icao_region, tsdDiscriminant n.type_data)

/-- The `user_fix.dat` overlay pass. -/
def mergeUserFixes (base user : List Fix) : List Fix :=
  mergeOverlay fixIdentityKey base user

/-- The `user_nav.dat` overlay pass. -/
def mergeUserNavaids (base user : List Navaid) : List Navaid :=
  mergeOverlay navaidIdentityKey base user

end XPUtils


namespace XPUtils

/-- Position of the first occurrence of key `t` in a key list: what
`iter().position(..)` computes, viewed through the identity-key projection. -/
def posKey {K : Type} [DecidableEq K] (t : K) (ks : List K) : Option Nat :=
  position (fun x => decide (x = t)) ks

/-- The congruence invariant used to compare two overlay runs: the lists carry
the same identity keys positionally, and any position where they disagree is
the first position of its key and that key still occurs in the remaining user
entries. -/
def overlayInv {A K : Type} [DecidableEq K] (k : A → K) (us : List A)
    (l₁ l₂ : List A) : Prop :=
  l₁.map k = l₂.map k ∧
  ∀ i x₁ x₂, l₁[i]? = some x₁ → l₂[i]? = some x₂ → x₁ ≠ x₂ →
    posKey (k x₁) (l₁.map k) = some i ∧ ∃ u ∈ us, k u = k x₁

end XPUtils


namespace XPUtils

/-! ## The builder (`navdata/mod.rs::build_data_from_folder`) -/

/-- `Fixes` from `navdata/fix.rs`. -/
structure Fixes where
  header : Header
  entries : List Fix
  deriving DecidableEq, Repr

/-- `Navaids` from `navdata/nav.rs`. -/
structure Navaids where
  header : Header
  entries : List Navaid
  deriving DecidableEq, Repr

/-- The parsed content of a navdata folder: what the five
`parse_file_buffered` calls deliver to `build_data_from_folder` wheneach  file is
well-formed at the line level. `userFixes`/`userNavs` are `none` when the
optional overlay file is absent. -/
structure FolderData where
  fixes : Fixes
  userFixes : Option Fixes
  navaids : Navaids
  userNavs : Option Navaids
  awyHeader : Header
  awyRows : List ParsedAwyEdge
  holdHeader : Header
  holdRows : List ParsedHoldEdge
  deriving DecidableEq, Repr

/-- The version gate of `fix.rs::parse_file_buffered` (XP1101 or XP1200). -/
def checkFixVersion (h : Header) : Except ParseErrM Unit :=
  if h.version = .xp1101 ∨ h.version = .xp1200 then .ok ()
  else .error (.unsupportedVersion h.version)

/-- The version gate of `nav.rs::parse_file_buffered` (XP1150 or XP1200). -/
def checkNavVersion (h : Header) : Except ParseErrM Unit :=
  if h.version = .xp1150 ∨ h.version = .xp1200 then .ok ()
  else .error (.unsupportedVersion h.version)

/-- The version gate of `hold.rs::parse_file_buffered` (XP1140 only). -/
def checkHoldVersion (h : Header) : Except ParseErrM Unit :=
  if h.version = .xp1140 then .ok ()
  else .error (.unsupportedVersion h.version)

/-- The builder's `ensure!(cycle == established_cycle, CycleMismatchSnafu ..)`. -/
def ensureCycle (establishedCycle newCycle : Nat) : Except ParseErrM Unit :=
  if newCycle = establishedCycle then .ok ()
  else .error (.cycleMismatch establishedCycle newCycle)

/-- Everything `build_data_from_folder` does before its final expression,
in source order: parse+version-gate the fix file, merge the user-fix overlay,
parse+gate the nav file, check its cycle, merge the user-nav overlay, push
fix vertices then navaid vertices, process the airway rows and check the
airway cycle, version-gate and process the hold rows and check the hold
cycle. File-level reading is abstracted to the parsed `FolderData`. -/
def buildExcept (d : FolderData) : Except ParseErrM NavGraphM := do
  let _ ← checkFixVersion d.fixes.header
  let fixEntries ←
    match d.userFixes with
    | none => pure d.fixes.entries
    | some uf => do
        let _ ← checkFixVersion uf.header
        pure (mergeUserFixes d.fixes.entries uf.entries)
  let _ ← checkNavVersion d.navaids.header
  let establishedCycle := d.fixes.header.cycle
  let _ ← ensureCycle establishedCycle d.navaids.header.cycle
  let navEntries ←
    match d.userNavs with
    | none => pure d.navaids.entries
    | some un => do
        let _ ← checkNavVersion un.header
        pure (mergeUserNavaids d.navaids.entries un.entries)
  let g₀ : NavGraphM :=
    ⟨fixEntries.map NavEntry.fix ++ navEntries.map NavEntry.navaid, []⟩
  let g₁ ← d.awyRows.foldlM processAwyRow g₀
  let _ ← ensureCycle establishedCycle d.awyHeader.cycle
  let _ ← checkHoldVersion d.holdHeader
  let g₂ ← d.holdRows.foldlM processHoldRow g₁
  let _ ← ensureCycle establishedCycle d.holdHeader.cycle
  pure g₂

/-- The observable outcome of `NavigationalData::build_data_from_folder`. -/
inductive BuildOutcome
  | ok (fixHeader navaidsHeader : Header) (g : NavGraphM)
  | err (e : ParseErrM)
  | panicTodo
  deriving DecidableEq, Repr

/-- `build_data_from_folder` from `navdata/mod.rs` (lines 50–134): every
error path returns `Err`, and the success path falls through to the trailing
`todo!()` (line 133), which panics. The `ok` constructor models the `Ok(Self)`
return the function's signature and doc comment promise. -/
def build_data_from_folder (d : FolderData) : BuildOutcome :=
  match buildExcept d with
  | .error e => .err e
  | .ok _ => .panicTodo

/-- A well-formed folder: consistent cycle 2401, supported versions, two
fixes, no navaids, one bidirectional airway row, no hold rows. -/
def sampleFolder : FolderData where
  fixes := ⟨⟨.xp1200, 2401, 20240105, []⟩, [mkFix "ABEAM" "ENRT" "K2", mkFix "FIKLO" "ENRT" "K2"]⟩
  userFixes := none
  navaids := ⟨⟨.xp1200, 2401, 20240105, []⟩, []⟩
  userNavs := none
  awyHeader := ⟨.xp1100, 2401, 20240105, []⟩
  awyRows := [awyRow0]
  holdHeader := ⟨.xp1140, 2401, 20240105, []⟩
  holdRows := []

end XPUtils


namespace XPUtils

/-! ## Graph queries (`navdata.rs::NavGraph::airway_find`) -/

/-- `AirwayTraverseError` from `navdata.rs`. -/
inductive AirwayTraverseErrM
  | notOnAirway (node : Nat ⊕ String) (awy : String) (start : Bool)
  | noPath (idx : Nat ⊕ String)
  | badNode (idx : Nat)
  deriving DecidableEq, Repr

/-- The edge filter used twice in `airway_find`:
`matches!(e.weight(), NavEdge::Airway(AwyEdge{name, ..}) if name == awy)`. -/
def isAwyNamed (e : NavEdge) (awy : String) : Bool :=
  match e with
  | .airway a => a.name == awy
  | .hold _ => false

/-- Ident of a graph vertex, as matched in `airway_find`'s result filter. -/
def identOfEntry : NavEntry → String
  | .fix f => f.ident
  | .navaid n => n.ident

/-- `self.graph.edges(start).any(..)`: petgraph's `edges` on a directed graph
yields OUTGOING edges only, so this is true iff `start` has an outgoing edge
labelled `awy`. -/
def hasOutgoingAwy (g : NavGraphM) (v : Nat) (awy : String) : Bool :=
  g.edges.any (fun e => e.1 == v && isAwyNamed e.2.2 awy)

/-- "Incident to an edge whose payload is an airway named `awy`", in either
direction — the spec §4.10 wording of the `NotOnAirway{start=true}` guard. -/
def incidentAwy (g : NavGraphM) (v : Nat) (awy : String) : Bool :=
  g.edges.any (fun e => (e.1 == v || e.2.1 == v) && isAwyNamed e.2.2 awy)

/-- One expansion step of the `awy`-filtered successor relation: the set plus
every target of an `awy`-labelled edge leaving it. -/
def awyStepSet (g : NavGraphM) (awy : String) (s : Finset Nat) : Finset Nat :=
  s ∪ (g.edges.filterMap (fun e =>
    if e.1 ∈ s ∧ isAwyNamed e.2.2 awy then some e.2.1 else none)).toFinset

/-- The set of vertices `DfsPostOrder::new(&ef, start).iter(&ef)` visits: all
vertices reachable from `start` in the edge-filtered graph. A depth-first
traversal visits each vertex at most once, and saturating the one-step
successor expansion `|V|` times computes the same set. -/
def dfsVisitSet (g : NavGraphM) (awy : String) (start : Nat) : Finset Nat :=
  (awyStepSet g awy)^[g.nodes.length] {start}

/-- `NavGraph::airway_find` from `navdata.rs` (lines 182–229): validate the
start index, require an outgoing `awy` edge at `start`
(`NotOnAirway{start=true}` otherwise), traverse the `awy`-filtered subgraph
from `start` collecting visited vertices whose ident equals `end`
(`NotOnAirway{start=false}` when none). Results are the collected vertex
indices (in index order; the source's post-order sequence carries the same
set, each vertex at most once). The collected result list `airwayResList` is
the visited vertices whose ident matches `end`, as a list of indices. -/
def airwayResList (g : NavGraphM) (awy endIdent : String) (start : Nat) :
    List Nat :=
  (List.range g.nodes.length).filter (fun v =>
    decide (v ∈ dfsVisitSet g awy start) &&
    (match g.nodes[v]? with
     | some en => identOfEntry en == endIdent
     | none => false))

def airway_find (g : NavGraphM) (start : Nat) (awy endIdent : String) :
    Except AirwayTraverseErrM (List Nat) :=
  if ¬ start < g.nodes.length then .error (.badNode start)
  else if ¬ hasOutgoingAwy g start awy then
    .error (.notOnAirway (.inl start) awy true)
  else if airwayResList g awy endIdent start = [] then
    .error (.notOnAirway (.inr endIdent) awy false)
  else .ok (airwayResList g awy endIdent start)

/-- Spec-side reachability along edges labelled `awy`, from `start`. -/
inductive AwyReachable (g : NavGraphM) (awy : String) (start : Nat) : Nat → Prop
  | refl : AwyReachable g awy start start
  | step {i j : Nat} (e : NavEdge) (hi : AwyReachable g awy start i)
      (hmem : (i, j, e) ∈ g.edges) (hname : isAwyNamed e awy = true) :
      AwyReachable g awy start j

/-- Well-formedness of the petgraph edge list: both endpoints of every edge
are valid vertex indices (petgraph's `add_edge` panics otherwise, so every
graph built through it satisfies this). -/
def edgesWF (g : NavGraphM) : Prop :=
  ∀ e ∈ g.edges, e.1 < g.nodes.length ∧ e.2.1 < g.nodes.length

/-- The graph of the C5 counterexample: vertex 0 (`AAA`) has an INCOMING
`J1` edge from vertex 1 (`BBB`) and no outgoing one. -/
def cexIncomingG : NavGraphM :=
  ⟨[.fix (mkFix "AAA" "ENRT" "K2"), .fix (mkFix "BBB" "ENRT" "K2")],
   [(1, 0, .airway ⟨0, 0, false, "J1"⟩)]⟩

end XPUtils


namespace XPUtils

/-! ## The two header-parser drafts (`navdata.rs`)

`navdata.rs` contains two competing header parsers: the winnow draft
`parse_header_after_bom` (lines 386–436), which parses the header line alone,
and the chumsky draft `parse_header_c` (lines 441–494), which parses the BOM
line, a newline, the header line and a newline. Both are embedded here as
character-list functions returning `Option Header`. -/

/-- `Option.guard`-style gate used to model parser-side `verify`/`try_map`
failures. -/
def guardB (b : Bool) : Option Unit := if b then some () else none

/-- `take(n)`: exactly `n` characters, or failure. -/
def strTake (n : Nat) (s : List Char) : Option (List Char × List Char) :=
  if n ≤ s.length then some (s.take n, s.drop n) else none

/-- One character (`any`/`one_of` input step). -/
def uncons : List Char → Option (Char × List Char)
  | c :: rest => some (c, rest)
  | [] => none

/-- Literal-tag parser (`" Version - data cycle ".parse_next` etc.). -/
def dropLit : List Char → List Char → Option (List Char)
  | [], s => some s
  | _ :: _, [] => none
  | c :: pre, x :: s => if x = c then dropLit pre s else none

/-- Numeric value of a digit string, as `str::parse` computes it. -/
def digitsToNat (ds : List Char) : Nat :=
  ds.foldl (fun acc c => acc * 10 + (c.toNat - 48)) 0

/-- The winnow draft's version dispatch: `take(4usize)` matched against the
five four-character version literals. -/
def versionOf (s : List Char) : Option DataVersion :=
  if s = "1100".toList then some .xp1100
  else if s = "1101".toList then some .xp1101
  else if s = "1140".toList then some .xp1140
  else if s = "1150".toList then some .xp1150
  else if s = "1200".toList then some .xp1200
  else none

/-- The chumsky draft's version dispatch: the parsed `u32` matched against the
five version numbers. -/
def versionOfNat (n : Nat) : Option DataVersion :=
  if n = 1100 then some .xp1100
  else if n = 1101 then some .xp1101
  else if n = 1140 then some .xp1140
  else if n = 1150 then some .xp1150
  else if n = 1200 then some .xp1200
  else none

/-- winnow's `space0` character class (space or tab); chumsky's
`inline_whitespace` coincides on the ASCII inputs of this format. -/
def isSpaceTab (c : Char) : Bool := c = ' ' ∨ c = '\t'

/-- The characters `chumsky::text::newline()` accepts as a one-character line
break (it also accepts the two-character `"\r\n"`). -/
def nlChars : List Char :=
  ['\n', '\r', '\x0B', '\x0C', '\u0085', '\u2028', '\u2029']

def isNlChar (c : Char) : Bool := decide (c ∈ nlChars)

/-- `chumsky::text::newline()`: `"\r\n"` or one newline character. -/
def dropNewline : List Char → Option (List Char)
  | '\r' :: '\n' :: rest => some rest
  | c :: rest => if isNlChar c then some rest else none
  | [] => none

/-- A winnow numeric header field:
`take(n).and_then(digit1).try_map(|s| s.parse::<uint>())` — take exactly `n`
characters, extract their (nonempty) digit prefix, and parse it within the
integer type's range `bound`. -/
def winUintField (n bound : Nat) (s : List Char) : Option (Nat × List Char) :=
  (strTake n s).bind fun pr =>
    if (pr.1.takeWhile Char.isDigit).isEmpty then none
    else if digitsToNat (pr.1.takeWhile Char.isDigit) < bound then
      some (digitsToNat (pr.1.takeWhile Char.isDigit), pr.2)
    else none

/-- `chum_uint` with no length verification: `text::digits(10)` (maximal,
nonempty digit run) then `parse` within `bound`. -/
def chumUintNum (bound : Nat) (s : List Char) : Option (Nat × List Char) :=
  if (s.takeWhile Char.isDigit).isEmpty then none
  else if digitsToNat (s.takeWhile Char.isDigit) < bound then
    some (digitsToNat (s.takeWhile Char.isDigit),
      s.drop (s.takeWhile Char.isDigit).length)
  else none

/-- `chum_uint` with `verify_exact_length::<L>`: maximal nonempty digit run,
exact-length check, then `parse` within `bound`. -/
def chumUintLen (bound L : Nat) (s : List Char) : Option (Nat × List Char) :=
  if (s.takeWhile Char.isDigit).isEmpty then none
  else if (s.takeWhile Char.isDigit).length = L then
    (if digitsToNat (s.takeWhile Char.isDigit) < bound then
      some (digitsToNat (s.takeWhile Char.isDigit),
        s.drop (s.takeWhile Char.isDigit).length)
     else none)
  else none

/-- winnow metadata: `take_until1(".").verify(p)` then `'.'` — at least one
character before the first dot, which must exist. -/
def winMetadata (p : List Char → Bool) (s : List Char) : Option (List Char) :=
  if (s.takeWhile (fun c => c ≠ '.')).isEmpty then none
  else if p (s.takeWhile (fun c => c ≠ '.')) then
    (match s.drop (s.takeWhile (fun c => c ≠ '.')).length with
     | '.' :: rest => some rest
     | _ => none)
  else none

/-- chumsky metadata: `none_of('.').repeated().to_slice().try_map(p)` then
`just('.')` — the (possibly empty) run of non-dot characters. -/
def chumMetadata (p : List Char → Bool) (s : List Char) : Option (List Char) :=
  if p (s.takeWhile (fun c => c ≠ '.')) then
    (match s.drop (s.takeWhile (fun c => c ≠ '.')).length with
     | '.' :: rest => some rest
     | _ => none)
  else none

/-- The winnow draft `parse_header_after_bom` (navdata.rs lines 386–436),
applied to the header line alone. The top-level `.parse` requires full
consumption; `rest` consumes everything, so no end check is needed. -/
def parse_header_after_bom (p : List Char → Bool) (line : List Char) :
    Option Header :=
  (strTake 4 line).bind fun pv =>
  (versionOf pv.1).bind fun ver =>
  (dropLit " Version - data cycle ".toList pv.2).bind fun r2 =>
  (winUintField 4 65536 r2).bind fun pc =>
  (dropLit ", build ".toList pc.2).bind fun r4 =>
  (winUintField 8 4294967296 r4).bind fun pb =>
  (dropLit ", metadata ".toList pb.2).bind fun r6 =>
  (winMetadata p r6).bind fun r8 =>
  some ⟨ver, pc.1, pb.1, r8.dropWhile isSpaceTab⟩

/-- The chumsky draft `parse_header_c` (navdata.rs lines 441–494), applied to
the whole two-line input (BOM via `one_of("IA")`, newline, header line,
newline); the chumsky `.parse` requires end of input. -/
def parse_header_c (p : List Char → Bool) (input : List Char) :
    Option Header :=
  (uncons input).bind fun pb0 =>
  (guardB (pb0.1 = 'I' ∨ pb0.1 = 'A')).bind fun _ =>
  (dropNewline pb0.2).bind fun r1 =>
  (chumUintNum 4294967296 r1).bind fun pn =>
  (versionOfNat pn.1).bind fun ver =>
  (dropLit " Version - data cycle ".toList pn.2).bind fun r3 =>
  (chumUintLen 65536 4 r3).bind fun pc =>
  (dropLit ", build ".toList pc.2).bind fun r5 =>
  (chumUintLen 4294967296 8 r5).bind fun pb =>
  (dropLit ", metadata ".toList pb.2).bind fun r7 =>
  (chumMetadata p r7).bind fun r8 =>
  (dropNewline ((r8.dropWhile isSpaceTab).drop
    ((r8.dropWhile isSpaceTab).takeWhile (fun c => ¬ isNlChar c)).length)).bind
    fun r10 =>
  (guardB r10.isEmpty).bind fun _ =>
  some ⟨ver, pc.1, pb.1,
    (r8.dropWhile isSpaceTab).takeWhile (fun c => ¬ isNlChar c)⟩

/-- The `FixXP1200` metadata predicate (`|md_type| md_type == "FixXP1200"`). -/
def fixTagPred (m : List Char) : Bool := decide (m = "FixXP1200".toList)

/-- A header line whose version field `01100` is a five-digit run: the chumsky
draft parses it as the `u32` value 1100, the winnow draft takes `"0110"` and
rejects. -/
def cexHeaderLine : List Char :=
  "01100 Version - data cycle 2401, build 20240105, metadata FixXP1200.x".toList

/-- A header line both drafts accept. -/
def okHeaderLine : List Char :=
  "1200 Version - data cycle 2401, build 20240105, metadata FixXP1200. (c) X".toList

/-- A header line ending in a lone carriage return, as `BufRead::lines()`
delivers for a file whose final line ends in `'\r'` with no following `'\n'`
(only a `"\r\n"` pair is stripped): both drafts accept it, but disagree on
the copyright they extract from it. -/
def cexCrLine : List Char :=
  "1200 Version - data cycle 2401, build 20240105, metadata FixXP1200. x".toList
    ++ ['\r']

end XPUtils

/-! ## Theorems settling the claims -/

namespace XPUtils

lemma fixTypeOfByte_eq_spec (b : Nat) : fixTypeOfByte b = specFixType b := rfl

lemma fixFunctionOfByte_eq_spec (b : Nat) (t : Bool) :
    fixFunctionOfByte b t = specFixFunction b t := rfl

lemma fixProcedureOfByte_eq_spec (b : Nat) : fixProcedureOfByte b = specFixProcedure b := rfl

/-- C7: for every fix row, the 32-bit flags field decodes via its little-endian
bytes 0, 1 and 2 into `FixType`, `FixFunction` and `FixProcedure` according to
the letter tables of spec §6; byte-1 codes `P`/`S` are context-sensitive on
`terminal_region ≠ ENRT`; bytes outside the tables give `Unrecognized(byte)`
and byte `0x20` gives `Unspecified`. -/
theorem fix_flags_decode_spec (flags : Nat) (terminalRegion : String) :
    fixRowFlags terminalRegion flags =
      (specFixType (leByte flags 0),
       specFixFunction (leByte flags 1) (terminalRegion ≠ "ENRT"),
       specFixProcedure (leByte flags 2)) := by
  unfold fixRowFlags parse_wpt_flags
  rw [fixTypeOfByte_eq_spec, fixFunctionOfByte_eq_spec, fixProcedureOfByte_eq_spec]

/-- C6: the localizer packed-course split satisfies the round-trip law
`crs_mag * 360 + crs_true = funny_number` on the exact decimal intermediate. -/
theorem loc_course_split_roundtrip (funnyNumber : ℚ) :
    (parseLocCourseSplit funnyNumber).1 * 360 + (parseLocCourseSplit funnyNumber).2 =
      funnyNumber := by
  simp only [parseLocCourseSplit]
  rw [div_mul_cancel₀ _ (by norm_num : (360 : ℚ) ≠ 0)]
  ring

/-- C3: for every hold row, if exactly one of the leg-minutes and leg-NM
columns is nonzero the resulting `LegLength` carries that dimension and value;
both nonzero fails with `ConflictingHoldLegLengths` carrying both values; both
zero is accepted as `Minutes(0)`. -/
theorem hold_leg_length_xor (m nm : ℚ) :
    (m ≠ 0 → nm = 0 → holdLegLength m nm = .ok (.minutes m)) ∧
    (m = 0 → nm ≠ 0 → holdLegLength m nm = .ok (.dme nm)) ∧
    (m ≠ 0 → nm ≠ 0 → holdLegLength m nm = .error (.conflicting m nm)) ∧
    (m = 0 → nm = 0 → holdLegLength m nm = .ok (.minutes 0)) := by
  refine ⟨?_, ?_, ?_, ?_⟩ <;> intro h1 h2 <;> simp [holdLegLength, h1, h2]

/-- Witness for C3 at concrete leg lengths. -/
theorem hold_leg_length_xor_witness :
    holdLegLength 1 0 = .ok (.minutes 1) ∧
    holdLegLength 0 2 = .ok (.dme 2) ∧
    holdLegLength 1 2 = .error (.conflicting 1 2) ∧
    holdLegLength 0 0 = .ok (.minutes 0) :=
  ⟨(hold_leg_length_xor 1 0).1 (by norm_num) rfl,
   (hold_leg_length_xor 0 2).2.1 rfl (by norm_num),
   (hold_leg_length_xor 1 2).2.2.1 (by norm_num) (by norm_num),
   (hold_leg_length_xor 0 0).2.2.2 rfl rfl⟩

end XPUtils

namespace XPUtils

lemma addAwyEdgesLoop_N (ih : Bool) (b t i₁ i₂ : Nat) :
    ∀ (names : List String) (g : NavGraphM),
    addAwyEdgesLoop 'N' ih b t i₁ i₂ names g =
      .ok ⟨g.nodes, g.edges ++ names.flatMap (fun n =>
        [(i₁, i₂, .airway ⟨b, t, ih, n⟩), (i₂, i₁, .airway ⟨b, t, ih, n⟩)])⟩
  | [], g => by simp [addAwyEdgesLoop]
  | n :: rest, g => by
    simp only [addAwyEdgesLoop]
    simp only [addAwyEdgesLoop_N ih b t i₁ i₂ rest]
    simp [addEdge, List.append_assoc]

lemma addAwyEdgesLoop_F (ih : Bool) (b t i₁ i₂ : Nat) :
    ∀ (names : List String) (g : NavGraphM),
    addAwyEdgesLoop 'F' ih b t i₁ i₂ names g =
      .ok ⟨g.nodes, g.edges ++ names.map (fun n =>
        (i₁, i₂, .airway ⟨b, t, ih, n⟩))⟩
  | [], g => by simp [addAwyEdgesLoop]
  | n :: rest, g => by
    simp only [addAwyEdgesLoop]
    simp only [addAwyEdgesLoop_F ih b t i₁ i₂ rest]
    simp [addEdge, List.append_assoc]

lemma addAwyEdgesLoop_B (ih : Bool) (b t i₁ i₂ : Nat) :
    ∀ (names : List String) (g : NavGraphM),
    addAwyEdgesLoop 'B' ih b t i₁ i₂ names g =
      .ok ⟨g.nodes, g.edges ++ names.map (fun n =>
        (i₂, i₁, .airway ⟨b, t, ih, n⟩))⟩
  | [], g => by simp [addAwyEdgesLoop]
  | n :: rest, g => by
    simp only [addAwyEdgesLoop]
    simp only [addAwyEdgesLoop_B ih b t i₁ i₂ rest]
    simp [addEdge, List.append_assoc]

lemma addAwyEdgesLoop_invalid (d : Char) (hB : d ≠ 'B') (hF : d ≠ 'F')
    (hN : d ≠ 'N') (ih : Bool) (b t i₁ i₂ : Nat) (n : String)
    (rest : List String) (g : NavGraphM) :
    addAwyEdgesLoop d ih b t i₁ i₂ (n :: rest) g =
      .error (.invalidAwyDir d) := by
  simp [addAwyEdgesLoop, hB, hF, hN]

/-- C2: per name in a parsed airway row's names column, direction `N` adds the
two directed edges (first→second and second→first), `F` adds first→second
only, `B` adds second→first only, any other direction character fails with
`InvalidAwyDir` carrying that character, and a bidirectional row with two
names adds four directed edges, all bearing the row's base FL, top FL and
`is_high` flag. -/
theorem awy_direction_edge_semantics (g : NavGraphM) (row : ParsedAwyEdge)
    (i₁ i₂ : Nat)
    (h₁ : resolveWpt g.nodes row.first = some i₁)
    (h₂ : resolveWpt g.nodes row.second = some i₂) :
    (row.direction = 'N' →
      processAwyRow g row = .ok ⟨g.nodes, g.edges ++ row.names.flatMap (fun n =>
        [(i₁, i₂, .airway ⟨row.base_fl, row.top_fl, row.is_high, n⟩),
         (i₂, i₁, .airway ⟨row.base_fl, row.top_fl, row.is_high, n⟩)])⟩) ∧
    (row.direction = 'F' →
      processAwyRow g row = .ok ⟨g.nodes, g.edges ++ row.names.map (fun n =>
        (i₁, i₂, .airway ⟨row.base_fl, row.top_fl, row.is_high, n⟩))⟩) ∧
    (row.direction = 'B' →
      processAwyRow g row = .ok ⟨g.nodes, g.edges ++ row.names.map (fun n =>
        (i₂, i₁, .airway ⟨row.base_fl, row.top_fl, row.is_high, n⟩))⟩) ∧
    (row.direction ≠ 'N' → row.direction ≠ 'F' → row.direction ≠ 'B' →
      row.names ≠ [] →
      processAwyRow g row = .error (.invalidAwyDir row.direction)) ∧
    (row.direction = 'N' → row.names.length = 2 →
      ∃ g', processAwyRow g row = .ok g' ∧
        g'.edges.length = g.edges.length + 4) := by
  have hproc : processAwyRow g row =
      addAwyEdgesLoop row.direction row.is_high row.base_fl row.top_fl i₁ i₂
        row.names g := by
    simp [processAwyRow, h₁, h₂]
  refine ⟨?_, ?_, ?_, ?_, ?_⟩
  · intro hd
    rw [hproc, hd, addAwyEdgesLoop_N]
  · intro hd
    rw [hproc, hd, addAwyEdgesLoop_F]
  · intro hd
    rw [hproc, hd, addAwyEdgesLoop_B]
  · intro hN hF hB hnames
    obtain ⟨n, rest, hcons⟩ := List.exists_cons_of_ne_nil hnames
    rw [hproc, hcons, addAwyEdgesLoop_invalid row.direction hB hF hN]
  · intro hd hlen
    obtain ⟨a, b, hab⟩ := List.length_eq_two.mp hlen
    refine ⟨_, by rw [hproc, hd, addAwyEdgesLoop_N], ?_⟩
    simp [hab]

/-- Witness for C2: the spec's airway scenario (two fixes, direction `N`,
names `J1-J101`) produces exactly four directed edges. -/
theorem awy_direction_edge_semantics_witness :
    processAwyRow awyG0 awyRow0 = .ok ⟨awyNodes0,
      [(0, 1, .airway ⟨180, 450, true, "J1"⟩),
       (1, 0, .airway ⟨180, 450, true, "J1"⟩),
       (0, 1, .airway ⟨180, 450, true, "J101"⟩),
       (1, 0, .airway ⟨180, 450, true, "J101"⟩)]⟩ :=
  (awy_direction_edge_semantics awyG0 awyRow0 0 1 rfl rfl).1 rfl

/-- C4 (code evaluation): an airway row whose FIRST endpoint (`NOPE`) fails to
resolve produces `ReferencedNonexistentWpt` carrying the SECOND endpoint's
ident (`FIKLO`), because both `ok_or_else` closures in
`airways.rs::parse_file_buffered` name `parsed_edge.second.ident`. -/
theorem awy_unresolved_first_reports_second :
    resolveWpt awyG0.nodes awyRowBadFirst.first = none ∧
    processAwyRow awyG0 awyRowBadFirst =
      .error (.referencedNonexistentWpt "FIKLO") :=
  ⟨rfl, rfl⟩

/-- C8 (code evaluation): `parse_ssa_row` multiplies the arc-radius field by
1000 and the θ/ρ fields by 10, instead of dividing as the declared units
(`arc_radius_nm`, "1/1000 nm", "1/10°", "1/10nm") require; the vertical angle
is divided by 100 as documented; all-whitespace string fields become `None`. -/
theorem cifp_scaled_fields_multiply :
    ssaArcRadius (some 12345) = some 12345000 ∧
    ssaArcRadius (some 12345) ≠ some ((12345 : ℚ) / 1000) ∧
    ssaTheta (some 1800) = some 18000 ∧
    ssaTheta (some 1800) ≠ some (180 : ℚ) ∧
    ssaRho (some 105) = some 1050 ∧
    ssaRho (some 105) ≠ some ((105 : ℚ) / 10) ∧
    ssaVerticalAngle (some 300) = some 3 ∧
    handle_empty "   " = none ∧
    handle_empty "AB" = some "AB" := by
  refine ⟨?_, ?_, ?_, ?_, ?_, ?_, ?_, by decide, by decide⟩ <;>
    norm_num [ssaArcRadius, ssaTheta, ssaRho, ssaVerticalAngle]

end XPUtils

namespace XPUtils

section OverlayLemmas

variable {A K : Type} [DecidableEq K]

lemma position_cons (p : A → Bool) (x : A) (xs : List A) :
    position p (x :: xs) = if p x then some 0 else (position p xs).map (· + 1) :=
  rfl

lemma posKey_cons (t x : K) (ks : List K) :
    posKey t (x :: ks) = if x = t then some 0 else (posKey t ks).map (· + 1) := by
  simp only [posKey, position_cons]
  by_cases hx : x = t <;> simp [hx]

lemma position_map_key (k : A → K) (t : K) (l : List A) :
    position (fun x => decide (k x = t)) l = posKey t (l.map k) := by
  induction l with
  | nil => rfl
  | cons x xs ih =>
    rw [List.map_cons, posKey_cons, position_cons]
    by_cases hx : k x = t
    · simp [hx]
    · simp [hx, ih]

lemma posKey_eq_none_iff (t : K) (ks : List K) :
    posKey t ks = none ↔ t ∉ ks := by
  induction ks with
  | nil => simp [posKey, position]
  | cons x xs ih =>
    rw [posKey_cons]
    by_cases hx : x = t
    · simp [hx]
    · have hx' : ¬t = x := fun h => hx h.symm
      simp [hx, hx', Option.map_eq_none', ih]

lemma posKey_some_lt {t : K} {ks : List K} {i : Nat}
    (h : posKey t ks = some i) : i < ks.length := by
  induction ks generalizing i with
  | nil => simp [posKey, position] at h
  | cons x xs ih =>
    rw [posKey_cons] at h
    by_cases hx : x = t
    · rw [if_pos hx] at h
      cases h
      simp
    · rw [if_neg hx] at h
      rcases Option.map_eq_some'.mp h with ⟨j, hj, rfl⟩
      have := ih hj
      simp only [List.length_cons]
      omega

lemma posKey_some_get {t : K} {ks : List K} {i : Nat}
    (h : posKey t ks = some i) : ks[i]? = some t := by
  induction ks generalizing i with
  | nil => simp [posKey, position] at h
  | cons x xs ih =>
    rw [posKey_cons] at h
    by_cases hx : x = t
    · rw [if_pos hx] at h
      cases h
      simp [hx]
    · rw [if_neg hx] at h
      rcases Option.map_eq_some'.mp h with ⟨j, hj, rfl⟩
      simpa using ih hj

lemma posKey_append_some {t : K} {ks : List K} (ys : List K) {i : Nat}
    (h : posKey t ks = some i) : posKey t (ks ++ ys) = some i := by
  induction ks generalizing i with
  | nil => simp [posKey, position] at h
  | cons x xs ih =>
    rw [posKey_cons] at h
    rw [List.cons_append, posKey_cons]
    by_cases hx : x = t
    · rw [if_pos hx] at h
      cases h
      simp [hx]
    · rw [if_neg hx] at h
      rcases Option.map_eq_some'.mp h with ⟨j, hj, rfl⟩
      rw [if_neg hx, ih hj]
      rfl

lemma posKey_append_self {t : K} {ks : List K}
    (h : posKey t ks = none) : posKey t (ks ++ [t]) = some ks.length := by
  induction ks with
  | nil => simp [posKey, position_cons]
  | cons x xs ih =>
    rw [posKey_cons] at h
    by_cases hx : x = t
    · rw [if_pos hx] at h
      cases h
    · rw [if_neg hx, Option.map_eq_none'] at h
      rw [List.cons_append, posKey_cons, if_neg hx, ih h]
      rfl

lemma set_of_getElem?_eq {l : List A} {i : Nat} {a : A}
    (h : l[i]? = some a) : l.set i a = l := by
  apply List.ext_getElem?
  intro j
  rcases eq_or_ne i j with rfl | hj
  · rw [List.getElem?_set_self', h]
    simp [Function.const]
  · rw [List.getElem?_set_ne hj]

end OverlayLemmas

end XPUtils

namespace XPUtils

section OverlayStepLemmas

variable {A K : Type} [DecidableEq K] {k : A → K}

lemma overlayStep_eq_set {l : List A} {u : A} {i : Nat}
    (h : posKey (k u) (l.map k) = some i) :
    overlayStep k l u = l.set i u := by
  simp [overlayStep, position_map_key, h]

lemma overlayStep_eq_append {l : List A} {u : A}
    (h : posKey (k u) (l.map k) = none) :
    overlayStep k l u = l ++ [u] := by
  simp [overlayStep, position_map_key, h]

lemma map_overlayStep_of_some {l : List A} {u : A} {i : Nat}
    (h : posKey (k u) (l.map k) = some i) :
    (overlayStep k l u).map k = l.map k := by
  rw [overlayStep_eq_set h, List.map_set, set_of_getElem?_eq (posKey_some_get h)]

lemma map_overlayStep_of_none {l : List A} {u : A}
    (h : posKey (k u) (l.map k) = none) :
    (overlayStep k l u).map k = l.map k ++ [k u] := by
  rw [overlayStep_eq_append h]
  simp

lemma mem_map_overlayStep {t : K} {l : List A} (u : A) (h : t ∈ l.map k) :
    t ∈ (overlayStep k l u).map k := by
  cases hp : posKey (k u) (l.map k) with
  | none => rw [map_overlayStep_of_none hp]; exact List.mem_append_left _ h
  | some i => rw [map_overlayStep_of_some hp]; exact h

lemma mem_map_foldl {t : K} (us : List A) {l : List A} (h : t ∈ l.map k) :
    t ∈ (us.foldl (overlayStep k) l).map k := by
  induction us generalizing l with
  | nil => exact h
  | cons u rest ih =>
    simp only [List.foldl_cons]
    exact ih (mem_map_overlayStep u h)

lemma overlayStep_tracks (l : List A) (u : A) :
    ∃ i₀, posKey (k u) ((overlayStep k l u).map k) = some i₀ ∧
      (overlayStep k l u)[i₀]? = some u := by
  cases hp : posKey (k u) (l.map k) with
  | some i =>
    have hlt : i < l.length := by
      have := posKey_some_lt hp
      simpa using this
    refine ⟨i, ?_, ?_⟩
    · rw [map_overlayStep_of_some hp]
      exact hp
    · rw [overlayStep_eq_set hp, List.getElem?_set_self',
        List.getElem?_eq_getElem hlt]
      simp [Function.const]
  | none =>
    refine ⟨l.length, ?_, ?_⟩
    · rw [map_overlayStep_of_none hp]
      have := posKey_append_self hp
      simpa using this
    · rw [overlayStep_eq_append hp]
      simp

lemma foldl_preserve_untouched {us : List A} {t : K}
    (hco : ∀ u' ∈ us, k u' ≠ t) {l : List A} {j : Nat} {v : A}
    (hpos : posKey t (l.map k) = some j) (hval : l[j]? = some v) :
    posKey t ((us.foldl (overlayStep k) l).map k) = some j ∧
      (us.foldl (overlayStep k) l)[j]? = some v := by
  induction us generalizing l with
  | nil => exact ⟨hpos, hval⟩
  | cons u rest ih =>
    simp only [List.foldl_cons]
    have hco' : ∀ u' ∈ rest, k u' ≠ t :=
      fun u' h => hco u' (List.mem_cons_of_mem _ h)
    have hku : k u ≠ t := hco u (List.mem_cons_self _ _)
    cases hp : posKey (k u) (l.map k) with
    | some i =>
      have hij : i ≠ j := by
        intro he
        subst he
        have h1 := posKey_some_get hp
        have h2 := posKey_some_get hpos
        rw [h1] at h2
        exact hku (Option.some.inj h2)
      refine ih hco' ?_ ?_
      · rw [map_overlayStep_of_some hp]
        exact hpos
      · rw [overlayStep_eq_set hp, List.getElem?_set_ne hij]
        exact hval
    | none =>
      have hjlt : j < l.length := by
        have := posKey_some_lt hpos
        simpa using this
      refine ih hco' ?_ ?_
      · rw [map_overlayStep_of_none hp]
        exact posKey_append_some _ hpos
      · rw [overlayStep_eq_append hp, List.getElem?_append, if_pos hjlt]
        exact hval

lemma overlay_foldl_congr {us : List A} :
    ∀ {l₁ l₂ : List A}, overlayInv k us l₁ l₂ →
      us.foldl (overlayStep k) l₁ = us.foldl (overlayStep k) l₂ := by
  induction us with
  | nil =>
    rintro l₁ l₂ ⟨hmap, hdiff⟩
    have hlen : l₁.length = l₂.length := by
      have := congrArg List.length hmap
      simpa using this
    simp only [List.foldl_nil]
    apply List.ext_getElem?
    intro j
    by_cases hj : j < l₁.length
    · rw [List.getElem?_eq_getElem hj, List.getElem?_eq_getElem (hlen ▸ hj)]
      by_cases he : l₁[j] = l₂[j]
      · rw [he]
      · have := hdiff j _ _ (List.getElem?_eq_getElem hj)
          (List.getElem?_eq_getElem (hlen ▸ hj)) he
        simp at this
    · push_neg at hj
      rw [List.getElem?_eq_none hj, List.getElem?_eq_none (hlen ▸ hj)]
  | cons u rest ih =>
    rintro l₁ l₂ ⟨hmap, hdiff⟩
    simp only [List.foldl_cons]
    cases hp : posKey (k u) (l₁.map k) with
    | some i =>
      have hp₂ : posKey (k u) (l₂.map k) = some i := by
        rw [← hmap]
        exact hp
      apply ih
      constructor
      · rw [map_overlayStep_of_some hp, map_overlayStep_of_some hp₂, hmap]
      · intro j x₁ x₂ h₁ h₂ hne
        rw [overlayStep_eq_set hp] at h₁
        rw [overlayStep_eq_set hp₂] at h₂
        rcases eq_or_ne i j with rfl | hij
        · exfalso
          have hi₁ : i < l₁.length := by
            have := posKey_some_lt hp
            simpa using this
          have hi₂ : i < l₂.length := by
            have := posKey_some_lt hp₂
            simpa using this
          rw [List.getElem?_set_self', List.getElem?_eq_getElem hi₁] at h₁
          rw [List.getElem?_set_self', List.getElem?_eq_getElem hi₂] at h₂
          simp [Function.const] at h₁ h₂
          exact hne (h₁.symm.trans h₂)
        · rw [List.getElem?_set_ne hij] at h₁
          rw [List.getElem?_set_ne hij] at h₂
          obtain ⟨hfirst, u', hu'mem, hu'k⟩ := hdiff j x₁ x₂ h₁ h₂ hne
          refine ⟨?_, ?_⟩
          · rw [map_overlayStep_of_some hp]
            exact hfirst
          · rcases List.mem_cons.mp hu'mem with rfl | hmem
            · exfalso
              rw [hu'k, hfirst] at hp
              exact hij (Option.some.inj hp).symm
            · exact ⟨u', hmem, hu'k⟩
    | none =>
      have hp₂ : posKey (k u) (l₂.map k) = none := by
        rw [← hmap]
        exact hp
      have hlen : l₁.length = l₂.length := by
        have := congrArg List.length hmap
        simpa using this
      apply ih
      constructor
      · rw [map_overlayStep_of_none hp, map_overlayStep_of_none hp₂, hmap]
      · intro j x₁ x₂ h₁ h₂ hne
        rw [overlayStep_eq_append hp] at h₁
        rw [overlayStep_eq_append hp₂] at h₂
        by_cases hj : j < l₁.length
        · rw [List.getElem?_append, if_pos hj] at h₁
          rw [List.getElem?_append, if_pos (hlen ▸ hj)] at h₂
          obtain ⟨hfirst, u', hu'mem, hu'k⟩ := hdiff j x₁ x₂ h₁ h₂ hne
          refine ⟨?_, ?_⟩
          · rw [map_overlayStep_of_none hp]
            exact posKey_append_some _ hfirst
          · rcases List.mem_cons.mp hu'mem with rfl | hmem
            · exfalso
              rw [hu'k, hfirst] at hp
              cases hp
            · exact ⟨u', hmem, hu'k⟩
        · exfalso
          have hx₁ : x₁ ∈ [u] := by
            push_neg at hj
            rw [List.getElem?_append, if_neg (by omega)] at h₁
            exact List.getElem?_mem h₁
          have hx₂ : x₂ ∈ [u] := by
            have hj' : ¬j < l₂.length := by omega
            rw [List.getElem?_append, if_neg (by omega)] at h₂
            exact List.getElem?_mem h₂
          simp at hx₁ hx₂
          exact hne (hx₁.trans hx₂.symm)

lemma overlay_foldl_idem (us : List A) :
    ∀ l : List A,
      us.foldl (overlayStep k) (us.foldl (overlayStep k) l) =
        us.foldl (overlayStep k) l := by
  induction us with
  | nil => intro l; rfl
  | cons u rest ih =>
    intro l
    simp only [List.foldl_cons]
    obtain ⟨i₀, htrackPos, htrackVal⟩ := overlayStep_tracks (k := k) l u
    set l₁ := overlayStep k l u with hl₁
    set r := rest.foldl (overlayStep k) l₁ with hr
    have hmem : k u ∈ r.map k := by
      apply mem_map_foldl
      exact List.getElem?_mem (posKey_some_get htrackPos)
    obtain ⟨i, hpr⟩ : ∃ i, posKey (k u) (r.map k) = some i := by
      cases hprr : posKey (k u) (r.map k) with
      | none => exact absurd hmem ((posKey_eq_none_iff _ _).mp hprr)
      | some i => exact ⟨i, rfl⟩
    by_cases hc : ∃ u' ∈ rest, k u' = k u
    · have hinv : overlayInv k rest (overlayStep k r u) r := by
        constructor
        · rw [map_overlayStep_of_some hpr]
        · intro j x₁ x₂ h₁ h₂ hne
          rw [overlayStep_eq_set hpr] at h₁
          rcases eq_or_ne i j with rfl | hij
          · have hi : i < r.length := by
              have := posKey_some_lt hpr
              simpa using this
            rw [List.getElem?_set_self', List.getElem?_eq_getElem hi] at h₁
            simp [Function.const] at h₁
            refine ⟨?_, ?_⟩
            · rw [map_overlayStep_of_some hpr, ← h₁]
              exact hpr
            · obtain ⟨u', hm, hk⟩ := hc
              exact ⟨u', hm, by rw [hk, h₁]⟩
          · exfalso
            rw [List.getElem?_set_ne hij] at h₁
            rw [h₁] at h₂
            exact hne (Option.some.inj h₂)
      rw [overlay_foldl_congr hinv]
      exact ih l₁
    · push_neg at hc
      obtain ⟨hpos', hval'⟩ :=
        foldl_preserve_untouched hc htrackPos htrackVal
      have hstep : overlayStep k r u = r := by
        rw [overlayStep_eq_set hpos', set_of_getElem?_eq hval']
      rw [hstep]
      exact ih l₁

end OverlayStepLemmas

/-- C9: the user-overlay merge is idempotent, both for fixes (identity tuple
`(ident, icao_region, terminal_region)`) and for navaids (identity tuple
`(ident, icao_region, discriminant(type_data))`): applying the
replace-if-identity-matches-else-append pass twice with the same overlay list
yields the same entry list as applying it once. -/
theorem overlay_merge_idempotent (baseF userF : List Fix)
    (baseN userN : List Navaid) :
    mergeUserFixes (mergeUserFixes baseF userF) userF =
      mergeUserFixes baseF userF ∧
    mergeUserNavaids (mergeUserNavaids baseN userN) userN =
      mergeUserNavaids baseN userN :=
  ⟨overlay_foldl_idem userF baseF, overlay_foldl_idem userN baseN⟩

end XPUtils

namespace XPUtils

/-- C1 (code evaluation): `build_data_from_folder` can never return `Ok`: every
run either fails with an error or falls through to the trailing `todo!()` and
panics. In particular the well-formed `sampleFolder` (shared cycle 2401,
supported versions, resolvable airway row) completes every parse and merge
step — `buildExcept` delivers the fully built graph with both fix vertices and
the four airway edges — and then panics instead of returning it. -/
theorem build_reaches_todo :
    (∀ d : FolderData, build_data_from_folder d = .panicTodo ∨
      ∃ e, build_data_from_folder d = .err e) ∧
    buildExcept sampleFolder = .ok
      ⟨[NavEntry.fix (mkFix "ABEAM" "ENRT" "K2"),
        NavEntry.fix (mkFix "FIKLO" "ENRT" "K2")],
       [(0, 1, .airway ⟨180, 450, true, "J1"⟩),
        (1, 0, .airway ⟨180, 450, true, "J1"⟩),
        (0, 1, .airway ⟨180, 450, true, "J101"⟩),
        (1, 0, .airway ⟨180, 450, true, "J101"⟩)]⟩ ∧
    build_data_from_folder sampleFolder = .panicTodo := by
  refine ⟨?_, rfl, rfl⟩
  intro d
  cases h : buildExcept d with
  | error e => exact Or.inr ⟨e, by simp [build_data_from_folder, h]⟩
  | ok g => exact Or.inl (by simp [build_data_from_folder, h])

end XPUtils

namespace XPUtils

section AirwayFindLemmas

variable {g : NavGraphM} {awy : String}

lemma subset_awyStepSet (s : Finset Nat) : s ⊆ awyStepSet g awy s :=
  Finset.subset_union_left

lemma mem_awyStepSet_of_edge {i j : Nat} {e : NavEdge} {s : Finset Nat}
    (hmem : (i, j, e) ∈ g.edges) (hname : isAwyNamed e awy = true)
    (hi : i ∈ s) : j ∈ awyStepSet g awy s := by
  apply Finset.mem_union_right
  rw [List.mem_toFinset]
  exact List.mem_filterMap.mpr ⟨(i, j, e), hmem, by simp [hi, hname]⟩

lemma mem_awyStepSet_elim {v : Nat} {s : Finset Nat}
    (h : v ∈ awyStepSet g awy s) :
    v ∈ s ∨ ∃ i e, (i, v, e) ∈ g.edges ∧ isAwyNamed e awy = true ∧ i ∈ s := by
  rcases Finset.mem_union.mp h with h | h
  · exact Or.inl h
  · right
    rw [List.mem_toFinset] at h
    obtain ⟨e, hmem, he⟩ := List.mem_filterMap.mp h
    by_cases hc : e.1 ∈ s ∧ isAwyNamed e.2.2 awy
    · rw [if_pos hc] at he
      injection he with hv
      subst hv
      exact ⟨e.1, e.2.2, hmem, hc.2, hc.1⟩
    · rw [if_neg hc] at he
      cases he

lemma awyStepSet_subset_range (hWF : edgesWF g) {s : Finset Nat}
    (hs : s ⊆ Finset.range g.nodes.length) :
    awyStepSet g awy s ⊆ Finset.range g.nodes.length := by
  intro v hv
  rcases mem_awyStepSet_elim hv with h | ⟨i, e, hmem, _, _⟩
  · exact hs h
  · exact Finset.mem_range.mpr (hWF _ hmem).2

lemma iterate_awyStep_subset_range (hWF : edgesWF g) {s : Finset Nat}
    (hs : s ⊆ Finset.range g.nodes.length) (k : Nat) :
    (awyStepSet g awy)^[k] s ⊆ Finset.range g.nodes.length := by
  induction k with
  | zero => exact hs
  | succ k ih =>
    rw [Function.iterate_succ_apply']
    exact awyStepSet_subset_range hWF ih

lemma iterate_awyStep_mono {s : Finset Nat} {k m : Nat} (hkm : k ≤ m) :
    (awyStepSet g awy)^[k] s ⊆ (awyStepSet g awy)^[m] s := by
  induction m, hkm using Nat.le_induction with
  | base => exact fun v hv => hv
  | succ m _ ih =>
    rw [Function.iterate_succ_apply']
    exact fun v hv => subset_awyStepSet _ (ih hv)

lemma iterate_awyStep_fixed_after {s : Finset Nat} {k : Nat}
    (hfix : (awyStepSet g awy)^[k + 1] s = (awyStepSet g awy)^[k] s)
    {m : Nat} (hkm : k ≤ m) :
    (awyStepSet g awy)^[m] s = (awyStepSet g awy)^[k] s := by
  induction m, hkm using Nat.le_induction with
  | base => rfl
  | succ m hm ih =>
    rw [Function.iterate_succ_apply', ih,
      show awyStepSet g awy ((awyStepSet g awy)^[k] s) =
        (awyStepSet g awy)^[k + 1] s from
        (Function.iterate_succ_apply' (awyStepSet g awy) k s).symm, hfix]

lemma exists_awyStep_iterate_fixed (hWF : edgesWF g) {start : Nat}
    (hstart : start < g.nodes.length) :
    ∃ k ≤ g.nodes.length,
      (awyStepSet g awy)^[k + 1] {start} = (awyStepSet g awy)^[k] {start} := by
  by_contra hno
  push_neg at hno
  have hsub : ({start} : Finset Nat) ⊆ Finset.range g.nodes.length := by
    simp [Finset.singleton_subset_iff, hstart]
  have hgrow : ∀ k, k ≤ g.nodes.length + 1 →
      k + 1 ≤ ((awyStepSet g awy)^[k] {start}).card := by
    intro k
    induction k with
    | zero => simp
    | succ k ih =>
      intro hk
      have hle : k ≤ g.nodes.length := by omega
      have hne := hno k hle
      have hss : ((awyStepSet g awy)^[k] {start} : Finset Nat) ⊆
          (awyStepSet g awy)^[k + 1] {start} := iterate_awyStep_mono (by omega)
      have hcard := Finset.card_lt_card
        (Finset.ssubset_iff_subset_ne.mpr ⟨hss, fun h => hne h.symm⟩)
      have := ih (by omega)
      omega
  have h1 := hgrow (g.nodes.length + 1) (le_refl _)
  have h2 : (((awyStepSet g awy)^[g.nodes.length + 1] {start}) : Finset Nat).card ≤
      g.nodes.length := by
    have hsub2 : (awyStepSet g awy)^[g.nodes.length + 1] {start} ⊆
        Finset.range g.nodes.length :=
      iterate_awyStep_subset_range hWF hsub (g.nodes.length + 1)
    have := Finset.card_le_card hsub2
    simpa using this
  omega

lemma dfsVisitSet_fixed (hWF : edgesWF g) {start : Nat}
    (hstart : start < g.nodes.length) :
    awyStepSet g awy (dfsVisitSet g awy start) = dfsVisitSet g awy start := by
  obtain ⟨k, hk, hfix⟩ : ∃ k ≤ g.nodes.length,
      (awyStepSet g awy)^[k + 1] {start} = (awyStepSet g awy)^[k] {start} :=
    exists_awyStep_iterate_fixed hWF hstart
  have h1 : dfsVisitSet g awy start = (awyStepSet g awy)^[k] {start} :=
    iterate_awyStep_fixed_after hfix hk
  rw [h1,
    show awyStepSet g awy ((awyStepSet g awy)^[k] {start}) =
      (awyStepSet g awy)^[k + 1] {start} from
      (Function.iterate_succ_apply' (awyStepSet g awy) k {start}).symm, hfix]

lemma mem_iterate_reachable {start v k : Nat}
    (h : v ∈ (awyStepSet g awy)^[k] {start}) : AwyReachable g awy start v := by
  induction k generalizing v with
  | zero =>
    simp only [Function.iterate_zero, id_eq, Finset.mem_singleton] at h
    subst h
    exact .refl
  | succ k ih =>
    rw [Function.iterate_succ_apply'] at h
    rcases mem_awyStepSet_elim h with h | ⟨i, e, hmem, hname, hi⟩
    · exact ih h
    · exact .step e (ih hi) hmem hname

lemma reachable_mem_dfsVisitSet (hWF : edgesWF g) {start v : Nat}
    (hstart : start < g.nodes.length)
    (h : AwyReachable g awy start v) : v ∈ dfsVisitSet g awy start := by
  induction h with
  | refl =>
    exact iterate_awyStep_mono (Nat.zero_le _) (by simp)
  | step e hi hmem hname ih =>
    have := mem_awyStepSet_of_edge hmem hname ih
    rwa [dfsVisitSet_fixed hWF hstart] at this

lemma reachable_lt (hWF : edgesWF g) {start v : Nat}
    (hstart : start < g.nodes.length)
    (h : AwyReachable g awy start v) : v < g.nodes.length := by
  induction h with
  | refl => exact hstart
  | step e _ hmem _ _ => exact (hWF _ hmem).2

end AirwayFindLemmas

end XPUtils

namespace XPUtils

lemma mem_airwayResList {g : NavGraphM} {awy endIdent : String} {start : Nat}
    (hstart : start < g.nodes.length) (hWF : edgesWF g) {v : Nat} :
    v ∈ airwayResList g awy endIdent start ↔
      (AwyReachable g awy start v ∧
        ∃ en, g.nodes[v]? = some en ∧ identOfEntry en = endIdent) := by
  rw [airwayResList, List.mem_filter, List.mem_range]
  constructor
  · rintro ⟨hv, hp⟩
    rw [Bool.and_eq_true] at hp
    obtain ⟨hd, hm⟩ := hp
    have hd' : v ∈ dfsVisitSet g awy start := of_decide_eq_true hd
    rw [dfsVisitSet] at hd'
    refine ⟨mem_iterate_reachable hd', ?_⟩
    cases hen : g.nodes[v]? with
    | none => simp [hen] at hm
    | some en =>
      simp only [hen, beq_iff_eq] at hm
      exact ⟨en, rfl, hm⟩
  · rintro ⟨hreach, en, hen, hid⟩
    have hvlt := reachable_lt hWF hstart hreach
    refine ⟨hvlt, ?_⟩
    rw [Bool.and_eq_true]
    refine ⟨decide_eq_true ?_, ?_⟩
    · exact reachable_mem_dfsVisitSet hWF hstart hreach
    · simp only [hen, beq_iff_eq]
      exact hid

/-- C5 (amended): given a valid start vertex and well-formed edge indices,
`airway_find` returns `NotOnAirway{start=true}` exactly when the start vertex
has no OUTGOING edge labelled `awy` (petgraph's `edges(start)` yields outgoing
edges only, so an incoming airway edge does not count); otherwise the
successful result is, without duplicates, exactly the set of vertices
reachable from `start` along directed `awy`-labelled edges whose ident equals
`end` (the start vertex included exactly when its own ident matches, since it
is trivially reachable), and `NotOnAirway{start=false}` is returned exactly
when that set is empty; the traversal is a total function. -/
theorem airway_find_semantics (g : NavGraphM) (start : Nat)
    (awy endIdent : String) (hstart : start < g.nodes.length)
    (hWF : edgesWF g) :
    (airway_find g start awy endIdent =
        .error (.notOnAirway (.inl start) awy true) ↔
      hasOutgoingAwy g start awy = false) ∧
    (∀ l, airway_find g start awy endIdent = .ok l →
      l.Nodup ∧ ∀ v, v ∈ l ↔ (AwyReachable g awy start v ∧
        ∃ en, g.nodes[v]? = some en ∧ identOfEntry en = endIdent)) ∧
    (airway_find g start awy endIdent =
        .error (.notOnAirway (.inr endIdent) awy false) ↔
      (hasOutgoingAwy g start awy = true ∧
        ¬∃ v, AwyReachable g awy start v ∧
          ∃ en, g.nodes[v]? = some en ∧ identOfEntry en = endIdent)) := by
  by_cases ho : hasOutgoingAwy g start awy = true
  · have hfind : airway_find g start awy endIdent =
        if airwayResList g awy endIdent start = [] then
          .error (.notOnAirway (.inr endIdent) awy false)
        else .ok (airwayResList g awy endIdent start) := by
      simp [airway_find, hstart, ho]
    refine ⟨?_, ?_, ?_⟩
    · rw [hfind]
      by_cases hL : airwayResList g awy endIdent start = [] <;>
        simp [hL, ho]
    · intro l hl
      rw [hfind] at hl
      by_cases hL : airwayResList g awy endIdent start = []
      · rw [if_pos hL] at hl
        cases hl
      · rw [if_neg hL] at hl
        injection hl with hl'
        subst hl'
        exact ⟨(List.nodup_range _).filter _,
          fun v => mem_airwayResList hstart hWF⟩
    · rw [hfind]
      by_cases hL : airwayResList g awy endIdent start = []
      · rw [if_pos hL]
        constructor
        · intro _
          refine ⟨ho, ?_⟩
          rintro ⟨v, hv⟩
          have : v ∈ airwayResList g awy endIdent start :=
            (mem_airwayResList hstart hWF).mpr hv
          rw [hL] at this
          cases this
        · intro _
          rfl
      · rw [if_neg hL]
        constructor
        · intro h
          cases h
        · rintro ⟨_, hnone⟩
          obtain ⟨v, hv⟩ := List.exists_mem_of_ne_nil _ hL
          exact absurd ⟨v, (mem_airwayResList hstart hWF).mp hv⟩ hnone
  · have ho' : hasOutgoingAwy g start awy = false := by
      simpa using ho
    have hfind : airway_find g start awy endIdent =
        .error (.notOnAirway (.inl start) awy true) := by
      simp [airway_find, hstart, ho']
    refine ⟨⟨fun _ => ho', fun _ => hfind⟩, ?_, ?_⟩
    · intro l hl
      rw [hfind] at hl
      cases hl
    · rw [hfind]
      constructor
      · intro h
        simp at h
      · rintro ⟨hout, _⟩
        rw [ho'] at hout
        cases hout

/-- Witness for C5 at a concrete graph: vertex 0 of `cexIncomingG` has no
outgoing `J1` edge, so `airway_find` reports `NotOnAirway{start=true}`. -/
theorem airway_find_semantics_witness :
    airway_find cexIncomingG 0 "J1" "BBB" =
      .error (.notOnAirway (.inl 0) "J1" true) :=
  (airway_find_semantics cexIncomingG 0 "J1" "BBB" (by decide)
    (by unfold edgesWF; decide)).1.mpr rfl

/-- C5 counterexample to the claim as stated: in `cexIncomingG`, vertex 0 IS
incident to an edge labelled `J1` (the incoming edge 1→0), yet `airway_find`
returns `NotOnAirway{start=true}`, because the source's guard scans only
outgoing edges (`self.graph.edges(start)` on a directed petgraph). -/
theorem airway_find_incident_start_cex :
    airway_find cexIncomingG 0 "J1" "BBB" =
      .error (.notOnAirway (.inl 0) "J1" true) ∧
    incidentAwy cexIncomingG 0 "J1" = true :=
  ⟨rfl, rfl⟩

end XPUtils

namespace XPUtils

/-- C10 counterexample: the two drafts are not equivalent, in two ways.
First, on the header line whose version field is the five-digit run `01100`,
the chumsky draft succeeds (parsing the run as the `u32` value 1100 = XP1100)
while the winnow draft, which takes exactly four characters (`"0110"`),
fails — their success domains differ. Second, on a header line ending in a
lone carriage return, BOTH drafts succeed yet return different copyright
values: the winnow draft's `rest` keeps the `'\r'`, while in the chumsky
draft the copyright stops before the `'\r'` and `text::newline()` consumes
the `"\r\n"` as the line terminator — so even joint success does not give
equal outputs. -/
theorem header_drafts_disagree_cex :
    (parse_header_c fixTagPred ('A' :: '\n' :: (cexHeaderLine ++ ['\n'])) =
      some ⟨.xp1100, 2401, 20240105, ['x']⟩ ∧
     parse_header_after_bom fixTagPred cexHeaderLine = none) ∧
    (parse_header_c fixTagPred ('A' :: '\n' :: (cexCrLine ++ ['\n'])) =
      some ⟨.xp1200, 2401, 20240105, ['x']⟩ ∧
     parse_header_after_bom fixTagPred cexCrLine =
      some ⟨.xp1200, 2401, 20240105, ['x', '\r']⟩) := by
  refine ⟨⟨?_, ?_⟩, ?_, ?_⟩ <;> decide

end XPUtils

namespace XPUtils

section HeaderLemmas

lemma guardB_eq_some {b : Bool} {u : Unit} (h : guardB b = some u) : b = true := by
  cases b
  · simp [guardB] at h
  · rfl

lemma guardB_true : guardB true = some () := rfl

lemma strTake_some {n : Nat} {s a b : List Char}
    (h : strTake n s = some (a, b)) : s = a ++ b ∧ a.length = n := by
  rw [strTake] at h
  by_cases hn : n ≤ s.length
  · rw [if_pos hn] at h
    injection h with h'
    injection h' with h1 h2
    subst h1
    subst h2
    refine ⟨(List.take_append_drop n s).symm, ?_⟩
    simp only [List.length_take]
    omega
  · rw [if_neg hn] at h
    cases h

lemma dropLit_some : ∀ {pre s r : List Char},
    dropLit pre s = some r → s = pre ++ r := by
  intro pre
  induction pre with
  | nil =>
    intro s r h
    simpa [dropLit] using h
  | cons c pre ih =>
    intro s r h
    cases s with
    | nil => cases h
    | cons x s =>
      rw [dropLit] at h
      split at h
      · rename_i hx
        subst hx
        simpa using ih h
      · cases h

lemma dropLit_of_append (pre r : List Char) : dropLit pre (pre ++ r) = some r := by
  induction pre with
  | nil => rfl
  | cons c pre ih => simpa [dropLit] using ih

lemma takeWhile_append_stop {p : Char → Bool} {a : List Char} {c : Char}
    (b : List Char) (ha : ∀ x ∈ a, p x = true) (hc : p c = false) :
    (a ++ c :: b).takeWhile p = a := by
  induction a with
  | nil => simp [List.takeWhile, hc]
  | cons x xs ih =>
    have hx : p x = true := ha x (List.mem_cons_self _ _)
    simp only [List.cons_append, List.takeWhile_cons, hx]
    simp only [if_true]
    rw [ih (fun y hy => ha y (List.mem_cons_of_mem _ hy))]

lemma dropWhile_append_stop {p : Char → Bool} {a : List Char} {c : Char}
    (b : List Char) (ha : ∀ x ∈ a, p x = true) (hc : p c = false) :
    (a ++ c :: b).dropWhile p = c :: b := by
  induction a with
  | nil => simp [List.dropWhile, hc]
  | cons x xs ih =>
    have hx : p x = true := ha x (List.mem_cons_self _ _)
    simp only [List.cons_append, List.dropWhile_cons, hx]
    simp only [if_true]
    exact ih (fun y hy => ha y (List.mem_cons_of_mem _ hy))

lemma dropWhile_append_of_stop {p : Char → Bool} {c : Char} (a b : List Char)
    (hc : p c = false) :
    (a ++ c :: b).dropWhile p = a.dropWhile p ++ c :: b := by
  induction a with
  | nil => simp [List.dropWhile, hc]
  | cons x xs ih =>
    by_cases hx : p x
    · simp only [List.cons_append, List.dropWhile_cons, hx, if_true]
      exact ih
    · simp only [List.cons_append, List.dropWhile_cons, hx]
      simp

lemma drop_takeWhile_length (p : Char → Bool) (s : List Char) :
    s.drop (s.takeWhile p).length = s.dropWhile p := by
  induction s with
  | nil => rfl
  | cons x xs ih =>
    by_cases hx : p x
    · simp [List.takeWhile_cons, List.dropWhile_cons, hx, ih]
    · simp [List.takeWhile_cons, List.dropWhile_cons, hx]

lemma dropWhile_cons_head {p : Char → Bool} : ∀ {l : List Char} {c : Char}
    {r : List Char}, l.dropWhile p = c :: r → p c = false := by
  intro l
  induction l with
  | nil => intro c r h; cases h
  | cons x xs ih =>
    intro c r h
    by_cases hx : p x
    · rw [List.dropWhile_cons, if_pos hx] at h
      exact ih h
    · rw [List.dropWhile_cons, if_neg hx] at h
      injection h with h1 _
      subst h1
      simpa using hx

lemma winUintField_some {n bound : Nat} {s : List Char} {v : Nat}
    {r : List Char} (h : winUintField n bound s = some (v, r)) :
    ∃ cn, s = cn ++ r ∧ cn.length = n ∧
      ¬(cn.takeWhile Char.isDigit).isEmpty = true ∧
      v = digitsToNat (cn.takeWhile Char.isDigit) ∧ v < bound := by
  rw [winUintField] at h
  simp only [Option.bind_eq_some] at h
  obtain ⟨⟨cn, r'⟩, h1, h2⟩ := h
  obtain ⟨hs, hlen⟩ := strTake_some h1
  simp only at h2
  split at h2
  · cases h2
  · split at h2
    · rename_i hemp hbound
      injection h2 with h2'
      injection h2' with hv hr
      subst hv
      subst hr
      exact ⟨cn, hs, hlen, by simpa using hemp, rfl, hbound⟩
    · cases h2

lemma winMetadata_some {p : List Char → Bool} {s r : List Char}
    (h : winMetadata p s = some r) :
    ∃ m, s = m ++ '.' :: r ∧ (∀ x ∈ m, x ≠ '.') ∧
      ¬m.isEmpty = true ∧ p m = true := by
  rw [winMetadata] at h
  split at h
  · cases h
  · split at h
    · rename_i hemp hp
      split at h
      · rename_i rest heq
        injection h with h'
        subst h'
        refine ⟨s.takeWhile (fun c => decide (c ≠ '.')), ?_, ?_, by simpa using hemp, hp⟩
        · conv_lhs => rw [← List.takeWhile_append_dropWhile (fun c => decide (c ≠ '.')) s]
          rw [← drop_takeWhile_length, heq]
        · intro x hx
          simpa using List.mem_takeWhile_imp hx
      · cases h
    · cases h

end HeaderLemmas

end XPUtils

namespace XPUtils

section HeaderEvalLemmas

lemma takeWhile_of_dropWhile_nil {p : Char → Bool} {l : List Char}
    (h : l.dropWhile p = []) : l.takeWhile p = l := by
  have := List.takeWhile_append_dropWhile p l
  rw [h, List.append_nil] at this
  exact this

lemma dropWhile_eq_self_of_takeWhile_nil {p : Char → Bool} {l : List Char}
    (h : l.takeWhile p = []) : l.dropWhile p = l := by
  have := List.takeWhile_append_dropWhile p l
  rw [h, List.nil_append] at this
  exact this

lemma mem_of_mem_dropWhile {p : Char → Bool} {l : List Char} {x : Char}
    (h : x ∈ l.dropWhile p) : x ∈ l := by
  have h2 : x ∈ l.takeWhile p ++ l.dropWhile p := List.mem_append_right _ h
  rwa [List.takeWhile_append_dropWhile] at h2

lemma takeWhile_append_nil {p : Char → Bool} {a b : List Char}
    (ha : ∀ x ∈ a, p x = true) (hb : b.takeWhile p = []) :
    (a ++ b).takeWhile p = a ∧ (a ++ b).dropWhile p = b := by
  induction a with
  | nil => simp [hb, dropWhile_eq_self_of_takeWhile_nil hb]
  | cons x xs ih =>
    have hx : p x = true := ha x (List.mem_cons_self _ _)
    have := ih (fun y hy => ha y (List.mem_cons_of_mem _ hy))
    simp only [List.cons_append, List.takeWhile_cons, List.dropWhile_cons, hx,
      if_true, this.1, this.2]
    simp

lemma chumUintNum_eval {bound : Nat} {a : List Char} (b : List Char)
    (ha : ∀ x ∈ a, Char.isDigit x = true) (hane : ¬a.isEmpty = true)
    (hb : b.takeWhile Char.isDigit = [])
    (hbd : digitsToNat a < bound) :
    chumUintNum bound (a ++ b) = some (digitsToNat a, b) := by
  obtain ⟨ht, _⟩ := takeWhile_append_nil ha hb
  rw [chumUintNum, ht, if_neg, if_pos hbd, List.drop_left]
  simpa using hane

lemma chumUintLen_eval {bound L : Nat} {a : List Char} (b : List Char)
    (ha : ∀ x ∈ a, Char.isDigit x = true) (hane : ¬a.isEmpty = true)
    (hb : b.takeWhile Char.isDigit = []) (hlen : a.length = L)
    (hbd : digitsToNat a < bound) :
    chumUintLen bound L (a ++ b) = some (digitsToNat a, b) := by
  obtain ⟨ht, _⟩ := takeWhile_append_nil ha hb
  rw [chumUintLen, ht, if_neg, if_pos hlen, if_pos hbd, List.drop_left]
  simpa using hane

lemma chumUintLen_fail {bound L : Nat} {s : List Char}
    (h : (s.takeWhile Char.isDigit).length ≠ L) :
    chumUintLen bound L s = none := by
  rw [chumUintLen]
  by_cases he : (s.takeWhile Char.isDigit).isEmpty
  · rw [if_pos he]
  · rw [if_neg he, if_neg h]

lemma chumMetadata_eval {p : List Char → Bool} {m : List Char} (b : List Char)
    (hm : ∀ x ∈ m, ¬x = '.') (hp : p m = true) :
    chumMetadata p (m ++ '.' :: b) = some b := by
  have ht : (m ++ '.' :: b).takeWhile (fun c => decide (c ≠ '.')) = m :=
    takeWhile_append_stop b (fun x hx => by simpa using hm x hx) (by simp)
  rw [chumMetadata, ht, if_pos hp, List.drop_left]
  rfl

lemma winnow_space_head (X : List Char) :
    ((" Version - data cycle ".toList) ++ X).takeWhile Char.isDigit = [] := by
  rw [show " Version - data cycle ".toList ++ X =
    ' ' :: ("Version - data cycle ".toList ++ X) from rfl]
  simp [List.takeWhile_cons]

lemma build_comma_head (X : List Char) :
    ((", build ".toList) ++ X).takeWhile Char.isDigit = [] := by
  rw [show ", build ".toList ++ X = ',' :: (" build ".toList ++ X) from rfl]
  simp [List.takeWhile_cons]

lemma metadata_comma_head (X : List Char) :
    ((", metadata ".toList) ++ X).takeWhile Char.isDigit = [] := by
  rw [show ", metadata ".toList ++ X = ',' :: (" metadata ".toList ++ X) from
    rfl]
  simp [List.takeWhile_cons]

lemma versionOf_props {v4 : List Char} {ver : DataVersion}
    (h : versionOf v4 = some ver) :
    (∀ c ∈ v4, Char.isDigit c = true) ∧ ¬v4.isEmpty = true ∧
      digitsToNat v4 < 4294967296 ∧
      versionOfNat (digitsToNat v4) = some ver := by
  rw [versionOf] at h
  split_ifs at h with h1 h2 h3 h4 h5 <;>
    first
    | (injection h with hv
       subst hv
       subst_vars
       refine ⟨by decide, by decide, by decide, by decide⟩)
    | cases h

lemma dropNewline_lf (Y : List Char) : dropNewline ('\n' :: Y) = some Y := rfl

end HeaderEvalLemmas

end XPUtils

namespace XPUtils

section HeaderChainLemmas

lemma parse_header_c_unfold1 (p : List Char → Bool) {bomc : Char}
    (hbom : bomc = 'I' ∨ bomc = 'A') {v4 : List Char} {ver : DataVersion}
    (X : List Char)
    (hv4d : ∀ c ∈ v4, Char.isDigit c = true) (hv4ne : ¬v4.isEmpty = true)
    (hvb : digitsToNat v4 < 4294967296)
    (hvn : versionOfNat (digitsToNat v4) = some ver)
    (hX : X.takeWhile Char.isDigit = []) :
    parse_header_c p (bomc :: '\n' :: (v4 ++ X)) =
      ((dropLit " Version - data cycle ".toList X).bind fun r3 =>
      (chumUintLen 65536 4 r3).bind fun pc =>
      (dropLit ", build ".toList pc.2).bind fun r5 =>
      (chumUintLen 4294967296 8 r5).bind fun pb =>
      (dropLit ", metadata ".toList pb.2).bind fun r7 =>
      (chumMetadata p r7).bind fun r8 =>
      (dropNewline ((r8.dropWhile isSpaceTab).drop
        ((r8.dropWhile isSpaceTab).takeWhile (fun c => ¬ isNlChar c)).length)).bind
        fun r10 =>
      (guardB r10.isEmpty).bind fun _ =>
      some ⟨ver, pc.1, pb.1,
        (r8.dropWhile isSpaceTab).takeWhile (fun c => ¬ isNlChar c)⟩) := by
  rw [parse_header_c]
  simp only [uncons, Option.some_bind]
  rw [show guardB (decide (bomc = 'I' ∨ bomc = 'A')) = some () from by
    rcases hbom with h | h <;> simp [guardB, h]]
  simp only [Option.some_bind]
  rw [dropNewline_lf]
  simp only [Option.some_bind]
  rw [chumUintNum_eval X hv4d hv4ne hX hvb]
  simp only [Option.some_bind]
  rw [hvn]
  simp only [Option.some_bind]

end HeaderChainLemmas

end XPUtils

namespace XPUtils

section HeaderEndToEnd

lemma parse_header_c_eval (p : List Char → Bool) {bomc : Char}
    (hbom : bomc = 'I' ∨ bomc = 'A')
    {v4 cn bn m r8 : List Char} {ver : DataVersion}
    (hv4d : ∀ c ∈ v4, Char.isDigit c = true) (hv4ne : ¬v4.isEmpty = true)
    (hvb : digitsToNat v4 < 4294967296)
    (hvn : versionOfNat (digitsToNat v4) = some ver)
    (hcnd : ∀ c ∈ cn, Char.isDigit c = true) (hcn4 : cn.length = 4)
    (hclt : digitsToNat cn < 65536)
    (hbnd : ∀ c ∈ bn, Char.isDigit c = true) (hbn8 : bn.length = 8)
    (hblt : digitsToNat bn < 4294967296)
    (hmnd : ∀ x ∈ m, ¬x = '.') (hpm : p m = true)
    (hr8nl : ∀ c ∈ r8, isNlChar c = false) :
    parse_header_c p (bomc :: '\n' ::
      (v4 ++ (" Version - data cycle ".toList ++ (cn ++ (", build ".toList ++
        (bn ++ (", metadata ".toList ++ (m ++ '.' :: (r8 ++ ['\n']))))))))) =
      some ⟨ver, digitsToNat cn, digitsToNat bn, r8.dropWhile isSpaceTab⟩ := by
  have hcne : ¬cn.isEmpty = true := by
    intro he
    rw [List.isEmpty_iff] at he
    subst he
    simp at hcn4
  have hbne : ¬bn.isEmpty = true := by
    intro he
    rw [List.isEmpty_iff] at he
    subst he
    simp at hbn8
  rw [parse_header_c_unfold1 p hbom _ hv4d hv4ne hvb hvn (winnow_space_head _)]
  rw [dropLit_of_append]
  simp only [Option.some_bind]
  rw [chumUintLen_eval _ hcnd hcne (build_comma_head _) hcn4 hclt]
  simp only [Option.some_bind]
  rw [dropLit_of_append]
  simp only [Option.some_bind]
  rw [chumUintLen_eval _ hbnd hbne (metadata_comma_head _) hbn8 hblt]
  simp only [Option.some_bind]
  rw [dropLit_of_append]
  simp only [Option.some_bind]
  rw [chumMetadata_eval _ hmnd hpm]
  simp only [Option.some_bind]
  rw [dropWhile_append_of_stop r8 [] (by decide)]
  have hwall : ∀ x ∈ r8.dropWhile isSpaceTab,
      (decide (¬isNlChar x = true)) = true := by
    intro x hx
    have := hr8nl x (mem_of_mem_dropWhile hx)
    simp [this]
  rw [takeWhile_append_stop [] hwall (by decide), List.drop_left]
  rfl

lemma parse_header_c_cycle_fail (p : List Char → Bool) {bomc : Char}
    (hbom : bomc = 'I' ∨ bomc = 'A') {v4 : List Char} {ver : DataVersion}
    (R : List Char)
    (hv4d : ∀ c ∈ v4, Char.isDigit c = true) (hv4ne : ¬v4.isEmpty = true)
    (hvb : digitsToNat v4 < 4294967296)
    (hvn : versionOfNat (digitsToNat v4) = some ver)
    (hfail : (R.takeWhile Char.isDigit).length ≠ 4) :
    parse_header_c p (bomc :: '\n' ::
      (v4 ++ (" Version - data cycle ".toList ++ R))) = none := by
  rw [parse_header_c_unfold1 p hbom _ hv4d hv4ne hvb hvn (winnow_space_head _)]
  rw [dropLit_of_append]
  simp only [Option.some_bind]
  rw [chumUintLen_fail hfail]
  rfl

lemma parse_header_c_build_fail (p : List Char → Bool) {bomc : Char}
    (hbom : bomc = 'I' ∨ bomc = 'A') {v4 cn : List Char} {ver : DataVersion}
    (R : List Char)
    (hv4d : ∀ c ∈ v4, Char.isDigit c = true) (hv4ne : ¬v4.isEmpty = true)
    (hvb : digitsToNat v4 < 4294967296)
    (hvn : versionOfNat (digitsToNat v4) = some ver)
    (hcnd : ∀ c ∈ cn, Char.isDigit c = true) (hcn4 : cn.length = 4)
    (hclt : digitsToNat cn < 65536)
    (hfail : (R.takeWhile Char.isDigit).length ≠ 8) :
    parse_header_c p (bomc :: '\n' ::
      (v4 ++ (" Version - data cycle ".toList ++ (cn ++ (", build ".toList ++
        R))))) = none := by
  have hcne : ¬cn.isEmpty = true := by
    intro he
    rw [List.isEmpty_iff] at he
    subst he
    simp at hcn4
  rw [parse_header_c_unfold1 p hbom _ hv4d hv4ne hvb hvn (winnow_space_head _)]
  rw [dropLit_of_append]
  simp only [Option.some_bind]
  rw [chumUintLen_eval _ hcnd hcne (build_comma_head _) hcn4 hclt]
  simp only [Option.some_bind]
  rw [dropLit_of_append]
  simp only [Option.some_bind]
  rw [chumUintLen_fail hfail]
  rfl

end HeaderEndToEnd

end XPUtils

namespace XPUtils

/-- C10 (amended): the two header-parser drafts agree whenever both succeed —
for a BOM in `{A, I}`, a newline-free header line and any metadata predicate,
if the chumsky draft (on BOM + newline + line + newline) and the winnow draft
(on the line alone) both return a header, the two headers have equal version,
cycle, build and copyright. (Their success domains differ: see the
counterexample with the five-digit version run `01100`.) -/
theorem header_drafts_agree (p : List Char → Bool) (bomc : Char)
    (line : List Char) (h₁ h₂ : Header)
    (hbom : bomc = 'I' ∨ bomc = 'A')
    (hnl : ∀ c ∈ line, isNlChar c = false)
    (hc : parse_header_c p (bomc :: '\n' :: (line ++ ['\n'])) = some h₁)
    (hw : parse_header_after_bom p line = some h₂) :
    h₁ = h₂ := by
  rw [parse_header_after_bom] at hw
  simp only [Option.bind_eq_some, Option.some.injEq] at hw
  obtain ⟨⟨v4, r1⟩, hpv, ver, hver, r2, hlit1, ⟨cyc, r3⟩, hcyc, r4, hlit2,
    ⟨bld, r5⟩, hbld, r6, hlit3, r8, hmeta, hh₂⟩ := hw
  have hs1 : line = v4 ++ r1 := (strTake_some hpv).1
  have hver' : versionOf v4 = some ver := hver
  obtain ⟨hvd, hvne, hvb, hvn⟩ := versionOf_props hver'
  have hr1 : r1 = " Version - data cycle ".toList ++ r2 := dropLit_some hlit1
  obtain ⟨cn, hr2, hcn4, hcne, hcycv, hclt⟩ := winUintField_some hcyc
  have hlit2' : dropLit ", build ".toList r3 = some r4 := hlit2
  have hr3 : r3 = ", build ".toList ++ r4 := dropLit_some hlit2'
  obtain ⟨bn, hr4, hbn8, hbne, hbldv, hblt⟩ := winUintField_some hbld
  have hlit3' : dropLit ", metadata ".toList r5 = some r6 := hlit3
  have hr5 : r5 = ", metadata ".toList ++ r6 := dropLit_some hlit3'
  obtain ⟨m, hr6, hmnd, hmne, hpm⟩ := winMetadata_some hmeta
  have hh₂' : (⟨ver, cyc, bld, r8.dropWhile isSpaceTab⟩ : Header) = h₂ := hh₂
  subst hs1
  subst hr1
  subst hr2
  subst hr3
  subst hr4
  subst hr5
  subst hr6
  simp only [List.append_assoc, List.cons_append] at hc
  have hr8nl : ∀ c ∈ r8, isNlChar c = false := by
    intro c hcm
    apply hnl
    simp [List.mem_append, hcm]
  rcases hce : cn.dropWhile Char.isDigit with _ | ⟨ec, ce⟩
  · have hcall : ∀ x ∈ cn, Char.isDigit x = true :=
      List.dropWhile_eq_nil_iff.mp hce
    have hctw : cn.takeWhile Char.isDigit = cn := takeWhile_of_dropWhile_nil hce
    rw [hctw] at hcycv
    subst hcycv
    rcases hbe : bn.dropWhile Char.isDigit with _ | ⟨eb, be⟩
    · have hball : ∀ x ∈ bn, Char.isDigit x = true :=
        List.dropWhile_eq_nil_iff.mp hbe
      have hbtw : bn.takeWhile Char.isDigit = bn :=
        takeWhile_of_dropWhile_nil hbe
      rw [hbtw] at hbldv
      subst hbldv
      have hcomp := parse_header_c_eval p hbom hvd hvne hvb hvn hcall hcn4
        hclt hball hbn8 hblt hmnd hpm hr8nl
      rw [hcomp] at hc
      injection hc with hmk
      rw [← hmk, ← hh₂']
    · exfalso
      have hbsplit := List.takeWhile_append_dropWhile Char.isDigit bn
      rw [hbe] at hbsplit
      have hblen := congrArg List.length hbsplit
      simp only [List.length_append, List.length_cons] at hblen
      rw [hbn8] at hblen
      have hfail : (((bn ++ (", metadata ".toList ++
          (m ++ '.' :: (r8 ++ ['\n']))))).takeWhile Char.isDigit).length ≠ 8 := by
        rw [← hbsplit, List.append_assoc, List.cons_append]
        rw [takeWhile_append_stop _ (fun x hx => List.mem_takeWhile_imp hx)
          (dropWhile_cons_head hbe)]
        omega
      have hnone := parse_header_c_build_fail p hbom _ hvd hvne hvb hvn hcall
        hcn4 hclt hfail
      rw [hnone] at hc
      cases hc
  · exfalso
    have hcsplit := List.takeWhile_append_dropWhile Char.isDigit cn
    rw [hce] at hcsplit
    have hclen := congrArg List.length hcsplit
    simp only [List.length_append, List.length_cons] at hclen
    rw [hcn4] at hclen
    have hfail : (((cn ++ (", build ".toList ++ (bn ++ (", metadata ".toList ++
        (m ++ '.' :: (r8 ++ ['\n']))))))).takeWhile Char.isDigit).length ≠ 4 := by
      rw [← hcsplit, List.append_assoc, List.cons_append]
      rw [takeWhile_append_stop _ (fun x hx => List.mem_takeWhile_imp hx)
        (dropWhile_cons_head hce)]
      omega
    have hnone := parse_header_c_cycle_fail p hbom _ hvd hvne hvb hvn hfail
    rw [hnone] at hc
    cases hc

/-- Witness for C10 at a concrete header line both drafts accept. -/
theorem header_drafts_agree_witness :
    (⟨DataVersion.xp1200, 2401, 20240105, "(c) X".toList⟩ : Header) =
      ⟨DataVersion.xp1200, 2401, 20240105, "(c) X".toList⟩ :=
  header_drafts_agree fixTagPred 'A' okHeaderLine _ _ (Or.inr rfl)
    (by decide) (by decide) (by decide)

end XPUtils
